import Mathlib

/-!
Verification of the gpu-docker-api resource schedulers, replica-set
controller and memory parsing against their Go sources.

Modelling conventions:
* Go strings are lists of characters (`GoStr`); Go byte indexing and
  slicing on the ASCII strings used here coincide with character
  indexing.
* A Go `map[string]byte` is an association list `Pool` in iteration
  order; Go map iteration order is unspecified, and the list order is
  one admissible order.  Reads of a missing key yield the zero value
  (`goGet`), writes update the existing entry in place or append a new
  one (`goSet`).
* Stateful code is explicit state passing; the `sync.RWMutex` in each
  scheduler matters only through Go's non-reentrancy: calling
  `Lock` while the same call already holds the lock blocks forever,
  which the model surfaces as an explicit `deadlock`/`hang` outcome.
-/

namespace GpuDockerApi

set_option autoImplicit false

/-- Go string, as its list of characters. -/
abbrev GoStr := List Char

/-- Coerce a Lean string literal to a `GoStr`. -/
def gstr (s : String) : GoStr := s.data

/-- A Go `map[string]T` for the maps used in this codebase
(`map[string]byte` pools, the version registry), in iteration order. -/
abbrev Pool := List (GoStr × Nat)

/-- First value bound to a key, if present (Go map read, presence part
of the comma-ok form). -/
def lookupOpt (m : Pool) (k : GoStr) : Option Nat :=
  match m with
  | [] => none
  | (a, v) :: rest => if a = k then some v else lookupOpt rest k

/-- Go map read `m[k]`: the zero value `0` when the key is absent. -/
def goGet (m : Pool) (k : GoStr) : Nat :=
  (lookupOpt m k).getD 0

/-- Go map write `m[k] = v`: update the entry in place, or add the key. -/
def goSet (m : Pool) (k : GoStr) (v : Nat) : Pool :=
  match m with
  | [] => [(k, v)]
  | (a, w) :: rest => if a = k then (a, v) :: rest else (a, w) :: goSet rest k v

/-- Go `delete(m, k)`. -/
def goDel (m : Pool) (k : GoStr) : Pool :=
  match m with
  | [] => []
  | (a, w) :: rest => if a = k then rest else (a, w) :: goDel rest k

/-- Keys of the map, in iteration order. -/
def keys (m : Pool) : List GoStr := m.map Prod.fst

@[simp] theorem keys_nil : keys [] = [] := rfl

@[simp] theorem keys_cons (a : GoStr) (w : Nat) (rest : Pool) :
    keys ((a, w) :: rest) = a :: keys rest := rfl

/-- Number of free slots: entries whose flag is `0`. -/
def countFree (m : Pool) : Nat := (m.filter (fun p => p.2 = 0)).length

/-- Number of in-use slots: entries whose flag is not `0`. -/
def countInUse (m : Pool) : Nat := (m.filter (fun p => ¬ p.2 = 0)).length

theorem countFree_add_countInUse (m : Pool) :
    countFree m + countInUse m = m.length := by
  induction m with
  | nil => rfl
  | cons p rest ih =>
    by_cases h : p.2 = 0 <;>
      simp [countFree, countInUse, List.filter, h] at ih ⊢ <;> omega

theorem lookupOpt_goSet_self (m : Pool) (k : GoStr) (v : Nat) :
    lookupOpt (goSet m k v) k = some v := by
  induction m with
  | nil => simp [goSet, lookupOpt]
  | cons p rest ih =>
    obtain ⟨a, w⟩ := p
    by_cases h : a = k <;> simp [goSet, lookupOpt, h, ih]

theorem lookupOpt_goSet_ne (m : Pool) (k a : GoStr) (v : Nat) (h : a ≠ k) :
    lookupOpt (goSet m k v) a = lookupOpt m a := by
  induction m with
  | nil =>
    have hka : ¬ k = a := fun hh => h hh.symm
    simp [goSet, lookupOpt, hka]
  | cons p rest ih =>
    obtain ⟨b, w⟩ := p
    by_cases hb : b = k
    · subst hb
      have hba : ¬ b = a := fun hh => h hh.symm
      simp [goSet, lookupOpt, hba]
    · simp [goSet, lookupOpt, hb, ih]

theorem goSet_eq_of_lookupOpt (m : Pool) (k : GoStr) (v : Nat)
    (h : lookupOpt m k = some v) : goSet m k v = m := by
  induction m with
  | nil => simp [lookupOpt] at h
  | cons p rest ih =>
    obtain ⟨a, w⟩ := p
    by_cases ha : a = k
    · subst ha
      simp [lookupOpt] at h
      simp [goSet, h]
    · simp [lookupOpt, ha] at h
      simp [goSet, ha, ih h]

theorem keys_goSet_of_mem (m : Pool) (k : GoStr) (v : Nat)
    (h : lookupOpt m k ≠ none) : keys (goSet m k v) = keys m := by
  induction m with
  | nil => simp [lookupOpt] at h
  | cons p rest ih =>
    obtain ⟨a, w⟩ := p
    by_cases ha : a = k
    · simp [goSet, ha, keys]
    · simp [lookupOpt, ha] at h
      simp [goSet, ha, keys] at ih ⊢
      exact ih h

theorem length_goSet_of_mem (m : Pool) (k : GoStr) (v : Nat)
    (h : lookupOpt m k ≠ none) : (goSet m k v).length = m.length := by
  have := keys_goSet_of_mem m k v h
  have h1 : (keys (goSet m k v)).length = (keys m).length := by rw [this]
  simpa [keys] using h1

theorem lookupOpt_ne_none_iff (m : Pool) (k : GoStr) :
    lookupOpt m k ≠ none ↔ k ∈ keys m := by
  induction m with
  | nil => simp [lookupOpt]
  | cons p rest ih =>
    obtain ⟨a, w⟩ := p
    by_cases ha : a = k
    · subst ha
      simp [lookupOpt]
    · have hka : ¬ k = a := fun hh => ha hh.symm
      simp [lookupOpt, ha, hka, ih]

/-! Decimal numerals and the comma-separated cpu-set strings. -/

/-- Decimal digits of `n`, least significant first; fuelled so the
definition is structural and reduces inside the kernel. -/
def digitsRevFuel : Nat → Nat → List Nat
  | 0, _ => []
  | fuel + 1, n => if n = 0 then [] else n % 10 :: digitsRevFuel fuel (n / 10)

/-- Decimal representation of a natural number, as Go's
`strconv.Itoa` / `fmt.Sprintf` produce it for non-negative values. -/
def natChars (n : Nat) : GoStr :=
  if n = 0 then ['0'] else ((digitsRevFuel n n).reverse.map Nat.digitChar)

/-- Numeric value of an all-digit string; `none` on any non-digit.
This is the syntax accepted by Go's `strconv.Atoi` for the unsigned
numerals that appear as cpu ids. -/
def charsToNatOpt (s : GoStr) : Option Nat :=
  s.foldl
    (fun acc c =>
      match acc with
      | none => none
      | some n => if c.isDigit then some (n * 10 + (c.toNat - 48)) else none)
    (some 0) |>.filter (fun _ => s ≠ [])

/-- Go `strconv.Atoi` with the error ignored, as the cpu scheduler uses
it: invalid input collapses to the zero value. -/
def goAtoi (s : GoStr) : Nat := (charsToNatOpt s).getD 0

/-- Insertion of one element into a sorted list of naturals. -/
def insertSorted (x : Nat) : List Nat → List Nat
  | [] => [x]
  | y :: rest => if x ≤ y then x :: y :: rest else y :: insertSorted x rest

/-- Ascending sort, modelling `sort.Ints`. -/
def sortInts : List Nat → List Nat
  | [] => []
  | x :: rest => insertSorted x (sortInts rest)

theorem length_insertSorted (x : Nat) (l : List Nat) :
    (insertSorted x l).length = l.length + 1 := by
  induction l with
  | nil => rfl
  | cons y rest ih =>
    by_cases h : x ≤ y <;> simp [insertSorted, h, ih]

theorem length_sortInts (l : List Nat) : (sortInts l).length = l.length := by
  induction l with
  | nil => rfl
  | cons x rest ih => simp [sortInts, length_insertSorted, ih]

/-- Split a string at every occurrence of `sep`, Go's `strings.Split`
for a one-character separator: `splitOnC sep [] = [[]]`, matching
`strings.Split("", sep) == [""]`. -/
def splitOnC (sep : Char) : GoStr → List GoStr
  | [] => [[]]
  | c :: rest =>
    if c = sep then [] :: splitOnC sep rest
    else
      match splitOnC sep rest with
      | [] => [[c]]
      | p :: ps => (c :: p) :: ps

/-- Go `strings.Join(parts, ",")`. -/
def joinComma : List GoStr → GoStr
  | [] => []
  | [x] => x
  | x :: rest => x ++ ',' :: joinComma rest

/-- Go `strings.Trim(s, ",")`: strip leading and trailing commas. -/
def trimComma (s : GoStr) : GoStr :=
  ((s.dropWhile (fun c => c = ',')).reverse.dropWhile (fun c => c = ',')).reverse

/-! The GPU scheduler (`gpuScheduler` in package `schedulers`). -/

/-- Result of one scheduler `Apply` call.  `deadlock` records that the
call never returns: the failure path of `gpuScheduler.Apply` invokes
the exported `Restore`, which re-acquires the `sync.RWMutex` that
`Apply` still holds; Go mutexes are not reentrant, so the goroutine
blocks forever with the partially flipped map left behind. -/
inductive ApplyOut where
  /-- Success: the allocated ids and the updated status map. -/
  | ok (ids : List GoStr) (m : Pool)
  /-- The `num <= 0 || num > Available…Nums` guard fired ("num must be
  greater than 0 and less than …"); the map is untouched. -/
  | errInvalid (m : Pool)
  /-- The `NotEnough` error; the map carried is the map at return. -/
  | errNotEnough (m : Pool)
  /-- The call blocks forever inside `Restore`; the map carried is the
  map at the moment of blocking. -/
  | deadlock (m : Pool)
  deriving DecidableEq, Repr

/-- Allocation loop of `gpuScheduler.Apply`: walk the status map in
iteration order, flip free entries to in-use, stop once `need` ids are
collected.  Returns the updated map and the collected ids. -/
def gpuApplyGo : Pool → Nat → Pool × List GoStr
  | [], _ => ([], [])
  | (k, v) :: rest, need =>
    if v = 0 then
      if need = 1 then ((k, 1) :: rest, [k])
      else
        let r := gpuApplyGo rest (need - 1)
        ((k, 1) :: r.1, k :: r.2)
    else
      let r := gpuApplyGo rest need
      ((k, v) :: r.1, r.2)

/-- `gpuScheduler.Apply(num)` over status map `m` with cached total
`avail` (`AvailableGpuNums`).  On a partial failure with at least one
id already flipped, the in-`Apply` call to `Restore` self-deadlocks on
the held lock; with zero ids collected, `Restore`'s length guard
returns before locking and the `NotEnough` error is returned. -/
def gpuApply (avail : Nat) (m : Pool) (num : Nat) : ApplyOut :=
  if num = 0 ∨ avail < num then .errInvalid m
  else
    let r := gpuApplyGo m num
    if r.2.length < num then
      if r.2.length = 0 ∨ avail < r.2.length then .errNotEnough r.1
      else .deadlock r.1
    else .ok r.2 r.1

/-- Mark every listed id free: the loop body shared by both
schedulers' restores (`m[id] = 0` for each id, in order). -/
def restoreList (ids : List GoStr) (m : Pool) : Pool :=
  ids.foldl (fun mm k => goSet mm k 0) m

/-- `gpuScheduler.Restore(gpus)`: a silent no-op when the list is empty
or longer than `AvailableGpuNums`, otherwise every listed id is marked
free. -/
def gpuRestore (avail : Nat) (m : Pool) (ids : List GoStr) : Pool :=
  if ids.length = 0 ∨ avail < ids.length then m else restoreList ids m

/-! The CPU scheduler (`cpuScheduler` in package `schedulers`). -/

/-- Allocation loop of `cpuScheduler.Apply`.  The source sorts the map
keys into `keys` and then writes `for k := range keys`, which iterates
the *indices* `0 .. len(keys)-1` of that slice, not its values; each
index is converted back to a string with `strconv.Itoa` and looked up
in the map, where a missing key reads as the zero value 0 and is then
inserted by the `= 1` write. -/
def cpuApplyGo (num : Nat) : List Nat → Pool → List GoStr → Pool × List GoStr
  | [], m, acc => (m, acc)
  | i :: rest, m, acc =>
    let ks := natChars i
    if goGet m ks = 0 then
      let m1 := goSet m ks 1
      let acc1 := acc ++ [ks]
      if acc1.length = num then (m1, acc1) else cpuApplyGo num rest m1 acc1
    else cpuApplyGo num rest m acc

/-- Mark every listed id in-use (`m[id] = 1` for each, in order). -/
def markInUse (ids : List GoStr) (m : Pool) : Pool :=
  ids.foldl (fun mm k => goSet mm k 1) m

/-- Result of a `cpuScheduler.Apply` call: success carries the cpu-set
string the Go function returns. -/
inductive CpuOut where
  /-- Success: the comma-joined cpu-set string and the updated map. -/
  | ok (cpuSet : GoStr) (m : Pool)
  /-- The `num <= 0 || num > AvailableCpuNums` guard fired. -/
  | errInvalid (m : Pool)
  /-- The `CpuNotEnough` error after the partial batch was rolled back
  by the unexported `restore`. -/
  | errNotEnough (m : Pool)
  deriving DecidableEq, Repr

/-- `cpuScheduler.Apply(num)` over status map `m` with cached total
`avail` (`AvailableCpuNums`).  Success returns the cpu-set string
(`strings.Trim(strings.Join(applyCpus, ","), ",")`).  The failure path
calls the unexported, lock-free `restore`, so no deadlock arises here. -/
def cpuApply (avail : Nat) (m : Pool) (num : Nat) : CpuOut :=
  if num = 0 ∨ avail < num then .errInvalid m
  else
    let sortedKeys := sortInts ((keys m).map goAtoi)
    let idxs := List.range sortedKeys.length
    let r := cpuApplyGo num idxs m []
    if r.2.length < num then .errNotEnough (restoreList r.2 r.1)
    else .ok (trimComma (joinComma r.2)) r.1

/-- `cpuScheduler.Restore(cpuSet)`: marks each listed id free with no
guard, and never returns an error. -/
def cpuRestore (m : Pool) (ids : List GoStr) : Pool :=
  restoreList ids m

/-! The port scheduler. -/

/-- Modelled from the spec: the port scheduler implementation is not
under `src/`; per the spec it exposes the same contract as the other
schedulers — `apply(n)` returns `n` ids that were free immediately
before the call, in iteration order, or fails with `PortNotEnough`
leaving no partial reservation, and `apply(0)` fails. -/
def portApply (avail : Nat) (m : Pool) (num : Nat) :
    Option (List GoStr × Pool) :=
  if num = 0 ∨ avail < num then none
  else
    let free := (m.filter (fun p => p.2 = 0)).map Prod.fst
    if free.length < num then none
    else
      let ids := free.take num
      some (ids, markInUse ids m)

/-- Modelled from the spec: `restore(ids)` marks each id free and never
fails. -/
def portRestore (m : Pool) (ids : List GoStr) : Pool :=
  restoreList ids m

/-! Memory-size parsing (`models.MemoryGetBytes`).

`strconv.ParseFloat` rounds a decimal literal to the nearest binary64
value and the code then multiplies by `float64(MemoryUnitMap[unit])`, a
power of two (2^10 … 2^40).  For an input whose decimal value is itself
a representable binary64 value — the domain of the claims — parsing is
exact, scaling by a power of two is exact in IEEE 754 binary arithmetic
(no rounding; only the exponent changes), and Go's `int64(f)`
truncation toward zero agrees with exact rational truncation as long as
the product lies in the `int64` range.  The model therefore computes
with exact rationals; theorems restrict their statements to
representable inputs via `IsBinary64`. -/

/-- Value of an all-digit string. -/
def digitsVal (s : GoStr) : Nat :=
  s.foldl (fun n c => n * 10 + (c.toNat - 48)) 0

/-- Sign and remaining characters of a decimal literal. -/
def stripSign (s : GoStr) : ℚ × GoStr :=
  match s with
  | [] => (1, s)
  | c :: r => if c = '+' then (1, r) else if c = '-' then (-1, r) else (1, s)

/-- Exact value of a decimal literal `[+-]?digits[.digits]?` (at least
one digit), the fragment of `strconv.ParseFloat` syntax exercised by
memory strings; `none` when the literal is malformed. -/
def parseDecChars (s : GoStr) : Option ℚ :=
  match splitOnC '.' (stripSign s).2 with
  | [ip] =>
    if ip ≠ [] ∧ ip.all Char.isDigit then some ((stripSign s).1 * digitsVal ip)
    else none
  | [ip, fp] =>
    if ip ++ fp ≠ [] ∧ ip.all Char.isDigit ∧ fp.all Char.isDigit then
      some ((stripSign s).1 * digitsVal (ip ++ fp) / 10 ^ fp.length)
    else none
  | _ => none

/-- The rational values representable as finite IEEE 754 binary64
floating-point numbers. -/
def IsBinary64 (v : ℚ) : Prop :=
  ∃ (m : Int) (e : Int), v = m * 2 ^ e ∧ m.natAbs < 2 ^ 53 ∧ -1074 ≤ e ∧ e ≤ 971

/-- Truncation toward zero, Go's `int64(f)` conversion for an in-range
argument. -/
def ratTrunc (q : ℚ) : Int :=
  if 0 ≤ q then ⌊q⌋ else -⌊-q⌋

/-- Go `strings.TrimSuffix`. -/
def goTrimSuffix (s suffix : GoStr) : GoStr :=
  if suffix.isSuffixOf s then s.take (s.length - suffix.length) else s

/-- The `models.MemoryUnitMap` lookup, with the Go zero value `0` for a
missing key. -/
def MemoryUnitMap (u : GoStr) : Nat :=
  if u = gstr "KB" then 1024
  else if u = gstr "MB" then 1024 * 1024
  else if u = gstr "GB" then 1024 * 1024 * 1024
  else if u = gstr "TB" then 1024 * 1024 * 1024 * 1024
  else 0

/-- Result of `models.MemoryGetBytes`: the byte count, the propagated
`ParseFloat` error, or a runtime panic from the `size[len(size)-2:]`
slice when the input has fewer than two characters (a negative slice
index). -/
inductive MemOut where
  /-- Normal return `(bytes, nil)`. -/
  | ok (bytes : Int)
  /-- Return `(0, err)` with the `strconv.ParseFloat` error. -/
  | err
  /-- Runtime panic: slice bound out of range. -/
  | panic
  deriving DecidableEq, Repr

/-- `models.MemoryGetBytes`: `unit` is `size[len(size)-2:]` (inlined
below as `size.drop (size.length - 2)`), `valueStr` is
`strings.TrimSuffix(size, unit)`, and the return value is
`int64(value * float64(MemoryUnitMap[unit]))`. -/
def MemoryGetBytes (size : GoStr) : MemOut :=
  if size.length < 2 then .panic
  else
    match parseDecChars (goTrimSuffix size (size.drop (size.length - 2))) with
    | none => .err
    | some value =>
      .ok (ratTrunc (value * (MemoryUnitMap (size.drop (size.length - 2)) : ℚ)))

/-- Modelled from the spec: `utils.ToBytes`, the memory parse used by
the run path, is not under `src/`; the spec defines the memory string
format realized by `models.MemoryGetBytes`, so the model delegates to
it. -/
def toBytes (s : GoStr) : MemOut := MemoryGetBytes s

/-! The replica-set controller (`services.ReplicaSetService`).

The container runtime and the inspect calls are external collaborators;
an `Oracle` fixes their answers for one call.  The write-behind queue
is the list of enqueued items in order; the etcd flush itself is
asynchronous and outside the claims. -/

/-- Error kinds surfaced by the modelled controller paths. -/
inductive GoErr where
  | containerExisted
  | gpuInvalidNum
  | gpuNotEnough
  | cpuInvalidNum
  | cpuNotEnough
  | portNotEnough
  | invalidMemory
  | createFailed
  | startFailed
  | versionNotFound
  | removeFailed
  deriving DecidableEq, Repr

/-- Namespaces of the kv store. -/
inductive Ns where
  | containers
  | volumes
  | gpus
  | cpus
  | ports
  deriving DecidableEq, Repr

/-- A write-behind work item: `etcd.PutKeyValue` (the serialized record
abbreviated to the fields the claims observe) or `etcd.DelKey`. -/
inductive WorkItem where
  | put (ns : Ns) (key : GoStr) (version : Nat) (env : List GoStr)
  | del (ns : Ns) (key : GoStr)
  deriving DecidableEq, Repr

/-- The mutable state the controller touches: the three scheduler
pools with their cached totals, the version registry
(`vmap.ContainerVersionMap`), the write-behind queue, and the record of
`os.RemoveAll` calls issued by `deleteMergeMap`. -/
structure SchedState where
  gpuAvail : Nat
  gpu : Pool
  cpuAvail : Nat
  cpu : Pool
  portAvail : Nat
  port : Pool
  vmap : Pool
  queue : List WorkItem
  removedPaths : List (List GoStr)
  deriving DecidableEq, Repr

/-- Answers of the container runtime for one controller call. -/
structure Oracle where
  existed : Bool
  createOk : Bool
  createId : GoStr
  startOk : Bool
  running : Bool
  paused : Bool
  inspectGpus : List GoStr
  inspectCpus : List GoStr
  inspectPorts : List GoStr
  removeOk : Bool
  deriving DecidableEq, Repr

/-- The slice of `models.EtcdContainerInfo` the modelled paths read. -/
structure CtrInfo where
  env : List GoStr
  portKeys : List GoStr
  deviceIds : List GoStr
  cpusetCpus : GoStr
  deriving DecidableEq, Repr

/-- Replace the first `CONTAINER_VERSION=`-prefixed entry, or append
the new entry at the end. -/
def setEnvEntry (newEntry : GoStr) : List GoStr → List GoStr
  | [] => [newEntry]
  | e :: rest =>
    if (gstr "CONTAINER_VERSION=").isPrefixOf e then newEntry :: rest
    else e :: setEnvEntry newEntry rest

/-- The env update at the top of `runContainer`: set
`CONTAINER_VERSION=<version>`, in place if present. -/
def envSetVersion (env : List GoStr) (version : Nat) : List GoStr :=
  setEnvEntry (gstr "CONTAINER_VERSION=" ++ natChars version) env

/-- `services.runContainer` (the `!mock` build).  Returns the container
id, the versioned name and the `etcd.PutKeyValue` for the caller to
enqueue.  The version counter is bumped up front; a deferred handler
rolls it back when the function-scoped `err` is non-nil — but the port
branch declares its own `err` with `:=` inside the `if` block, so a
`PortScheduler.Apply` failure leaves the outer `err` nil and the bumped
version in place. -/
def runContainer (o : Oracle) (name : GoStr) (info : CtrInfo)
    (onlyCreate : Bool) (s0 : SchedState) :
    Except GoErr (GoStr × GoStr × WorkItem) × SchedState :=
  let version := goGet s0.vmap name + 1
  let s1 : SchedState := { s0 with vmap := goSet s0.vmap name version }
  let env1 := envSetVersion info.env version
  let rollbackVersion : SchedState → SchedState := fun st =>
    if version = 1 then { st with vmap := goDel st.vmap name }
    else { st with vmap := goSet st.vmap name (version - 1) }
  let portStep : Except GoErr SchedState :=
    if 0 < info.portKeys.length then
      match portApply s1.portAvail s1.port info.portKeys.length with
      | none => .error .portNotEnough
      | some (_, pm) => .ok { s1 with port := pm }
    else .ok s1
  match portStep with
  | .error e => (.error e, s1)
  | .ok s2 =>
    let ctrVersionName := name ++ '-' :: natChars version
    if o.createOk = false then (.error .createFailed, rollbackVersion s2)
    else if onlyCreate = false ∧ o.startOk = false then
      (.error .startFailed, rollbackVersion s2)
    else (.ok (o.createId, ctrVersionName, .put .containers name version env1), s2)

/-- The run-spec fields `RunGpuContainer` reads
(`models.ContainerRun`). -/
structure RunSpec where
  replicaSetName : GoStr
  gpuCount : Nat
  cpuCount : Nat
  memory : GoStr
  containerPorts : List GoStr
  env : List GoStr
  deriving DecidableEq, Repr

instance {ε α : Type} [DecidableEq ε] [DecidableEq α] : DecidableEq (Except ε α)
  | .ok a, .ok b =>
    if h : a = b then isTrue (by rw [h]) else isFalse (by simp [h])
  | .ok _, .error _ => isFalse (by simp)
  | .error _, .ok _ => isFalse (by simp)
  | .error e, .error f =>
    if h : e = f then isTrue (by rw [h]) else isFalse (by simp [h])

/-- Outcome of `RunGpuContainer`: a normal return with the final state,
a goroutine blocked forever inside the GPU scheduler, or a runtime
panic propagating out of the memory parse. -/
inductive RunOut where
  | ret (r : Except GoErr (GoStr × GoStr)) (s : SchedState)
  | hang (s : SchedState)
  | panicked (s : SchedState)
  deriving DecidableEq, Repr

/-- Tail of `RunGpuContainer` from the `runContainer` call on: on
failure restore the GPUs when a device request was set, and
unconditionally restore `strings.Split(CpusetCpus, ",")` — which is
`[""]` when no cpus were requested, inserting the empty id into the cpu
map; the host ports acquired inside `runContainer` are not restored. -/
def runGpuCreate (o : Oracle) (spec : RunSpec) (portKeys : List GoStr)
    (uuids : List GoStr) (cpuSet : GoStr) (s3 : SchedState) : RunOut :=
  let info : CtrInfo :=
    { env := spec.env, portKeys := portKeys, deviceIds := uuids,
      cpusetCpus := cpuSet }
  match runContainer o spec.replicaSetName info false s3 with
  | (.error e, s4) =>
    let s5 :=
      if 0 < spec.gpuCount then
        { s4 with gpu := gpuRestore s4.gpuAvail s4.gpu uuids }
      else s4
    let s6 := { s5 with cpu := cpuRestore s5.cpu (splitOnC ',' cpuSet) }
    .ret (.error e) s6
  | (.ok (id, nm, kv), s4) =>
    .ret (.ok (id, nm)) { s4 with queue := s4.queue ++ [kv] }

/-- Memory step of `RunGpuContainer`: parse when a memory string was
given; on a parse error restore the GPUs (if requested) and the CPUs
(if requested, via the cpu-set split). -/
def runGpuMem (o : Oracle) (spec : RunSpec) (portKeys : List GoStr)
    (uuids : List GoStr) (cpuSet : GoStr) (s2 : SchedState) : RunOut :=
  if spec.memory ≠ [] then
    match toBytes spec.memory with
    | .ok _ => runGpuCreate o spec portKeys uuids cpuSet s2
    | .panic => .panicked s2
    | .err =>
      let s3 :=
        if 0 < spec.gpuCount then
          { s2 with gpu := gpuRestore s2.gpuAvail s2.gpu uuids }
        else s2
      let s4 :=
        if 0 < spec.cpuCount then
          { s3 with cpu := cpuRestore s3.cpu (splitOnC ',' cpuSet) }
        else s3
      .ret (.error .invalidMemory) s4
  else runGpuCreate o spec portKeys uuids cpuSet s2

/-- CPU step of `RunGpuContainer`: apply when cpus were requested; on
failure restore the GPUs acquired in this call (if any) and return. -/
def runGpuCpu (o : Oracle) (spec : RunSpec) (portKeys : List GoStr)
    (uuids : List GoStr) (s1 : SchedState) : RunOut :=
  if 0 < spec.cpuCount then
    match cpuApply s1.cpuAvail s1.cpu spec.cpuCount with
    | .errInvalid m =>
      let s2 := { s1 with cpu := m }
      let s3 :=
        if 0 < spec.gpuCount then
          { s2 with gpu := gpuRestore s2.gpuAvail s2.gpu uuids }
        else s2
      .ret (.error .cpuInvalidNum) s3
    | .errNotEnough m =>
      let s2 := { s1 with cpu := m }
      let s3 :=
        if 0 < spec.gpuCount then
          { s2 with gpu := gpuRestore s2.gpuAvail s2.gpu uuids }
        else s2
      .ret (.error .cpuNotEnough) s3
    | .ok cpuSet m => runGpuMem o spec portKeys uuids cpuSet { s1 with cpu := m }
  else runGpuMem o spec portKeys uuids [] s1

/-- `services.RunGpuContainer`. -/
def runGpuContainer (o : Oracle) (spec : RunSpec) (s0 : SchedState) : RunOut :=
  if o.existed then .ret (.error .containerExisted) s0
  else
    let portKeys := spec.containerPorts.map (fun p => p ++ gstr "/tcp")
    if 0 < spec.gpuCount then
      match gpuApply s0.gpuAvail s0.gpu spec.gpuCount with
      | .errInvalid m => .ret (.error .gpuInvalidNum) { s0 with gpu := m }
      | .errNotEnough m => .ret (.error .gpuNotEnough) { s0 with gpu := m }
      | .deadlock m => .hang { s0 with gpu := m }
      | .ok ids m => runGpuCpu o spec portKeys ids { s0 with gpu := m }
    else runGpuCpu o spec portKeys [] s0

/-- `services.DeleteContainer`.  Restores the live resources when the
container is running or paused, removes the merge directory and the
version entry — both derived from `strings.Split(name, "-")[0]` — and
enqueues the kv delete under the full name before removing the
container. -/
def deleteContainer (o : Oracle) (name : GoStr) (s0 : SchedState) :
    Except GoErr Unit × SchedState :=
  match lookupOpt s0.vmap name with
  | none => (.error .versionNotFound, s0)
  | some _ =>
    let s1 :=
      if o.running ∨ o.paused then
        { s0 with
          gpu := gpuRestore s0.gpuAvail s0.gpu o.inspectGpus,
          cpu := cpuRestore s0.cpu o.inspectCpus,
          port := portRestore s0.port o.inspectPorts }
      else s0
    let root := (splitOnC '-' name).headD []
    let s2 :=
      { s1 with removedPaths := s1.removedPaths ++ [[gstr "merges", root]] }
    let s3 := { s2 with vmap := goDel s2.vmap root }
    let s4 := { s3 with queue := s3.queue ++ [WorkItem.del .containers name] }
    if o.removeOk then (.ok (), s4) else (.error .removeFailed, s4)

/-- A pool with every listed id free, the state every scheduler starts
from after discovery. -/
def initPool (ids : List GoStr) : Pool := ids.map (fun k => (k, 0))

/-- The canonical cpu ids `"0" … "n-1"` produced by
`getAllCpuProcessors`. -/
def initCpuIds (n : Nat) : List GoStr := (List.range n).map natChars

/-! Facts about `restoreList`, `markInUse` and `goSet`. -/

theorem restoreList_nil (m : Pool) : restoreList [] m = m := rfl

theorem restoreList_cons (a : GoStr) (t : List GoStr) (m : Pool) :
    restoreList (a :: t) m = restoreList t (goSet m a 0) := rfl

theorem markInUse_nil (m : Pool) : markInUse [] m = m := rfl

theorem markInUse_cons (a : GoStr) (t : List GoStr) (m : Pool) :
    markInUse (a :: t) m = markInUse t (goSet m a 1) := rfl

theorem lookupOpt_restoreList_notmem (ids : List GoStr) (m : Pool) (k : GoStr)
    (h : k ∉ ids) : lookupOpt (restoreList ids m) k = lookupOpt m k := by
  induction ids generalizing m with
  | nil => rfl
  | cons a t ih =>
    rw [restoreList_cons]
    have hk : k ≠ a := fun hh => h (hh ▸ List.mem_cons_self a t)
    rw [ih _ (fun hh => h (List.mem_cons_of_mem a hh)),
      lookupOpt_goSet_ne m a k 0 hk]

theorem lookupOpt_restoreList_mem (ids : List GoStr) (m : Pool) (k : GoStr)
    (h : k ∈ ids) : lookupOpt (restoreList ids m) k = some 0 := by
  induction ids generalizing m with
  | nil => cases h
  | cons a t ih =>
    rw [restoreList_cons]
    by_cases ht : k ∈ t
    · exact ih _ ht
    · have hk : k = a := by
        rcases List.mem_cons.mp h with h1 | h2
        · exact h1
        · exact absurd h2 ht
      subst hk
      rw [lookupOpt_restoreList_notmem t _ k ht, lookupOpt_goSet_self]

theorem restoreList_eq_self (ids : List GoStr) (m : Pool)
    (h : ∀ k ∈ ids, lookupOpt m k = some 0) : restoreList ids m = m := by
  induction ids with
  | nil => rfl
  | cons a t ih =>
    rw [restoreList_cons, goSet_eq_of_lookupOpt m a 0 (h a (List.mem_cons_self a t))]
    exact ih (fun k hk => h k (List.mem_cons_of_mem a hk))

theorem restoreList_idem (ids : List GoStr) (m : Pool) :
    restoreList ids (restoreList ids m) = restoreList ids m :=
  restoreList_eq_self ids _ (fun k hk => lookupOpt_restoreList_mem ids m k hk)

theorem goGet_restoreList_mem (ids : List GoStr) (m : Pool) (k : GoStr)
    (h : k ∈ ids) : goGet (restoreList ids m) k = 0 := by
  rw [goGet, lookupOpt_restoreList_mem ids m k h]
  rfl

theorem goSet_goSet_same (m : Pool) (k : GoStr) (x y : Nat) :
    goSet (goSet m k x) k y = goSet m k y := by
  induction m with
  | nil => simp [goSet]
  | cons p rest ih =>
    obtain ⟨a, w⟩ := p
    by_cases ha : a = k <;> simp [goSet, ha, ih]

theorem lookupOpt_goSet_ne_none (m : Pool) (k b : GoStr) (y : Nat)
    (h : lookupOpt m k ≠ none) : lookupOpt (goSet m b y) k ≠ none := by
  by_cases hkb : k = b
  · subst hkb
    rw [lookupOpt_goSet_self]
    exact fun hh => nomatch hh
  · rw [lookupOpt_goSet_ne m b k y hkb]
    exact h

theorem goSet_comm_ne (m : Pool) (a b : GoStr) (x y : Nat) (hab : a ≠ b)
    (ha : lookupOpt m a ≠ none) :
    goSet (goSet m a x) b y = goSet (goSet m b y) a x := by
  induction m with
  | nil => exact absurd rfl ha
  | cons p rest ih =>
    obtain ⟨c, w⟩ := p
    by_cases hca : c = a
    · subst hca
      have hcb : ¬ c = b := fun hh => hab hh
      simp [goSet, hcb, if_pos rfl]
    · by_cases hcb : c = b
      · subst hcb
        simp [goSet, hca, if_pos rfl]
      · simp only [lookupOpt, if_neg hca] at ha
        simp [goSet, hca, hcb, ih ha]

theorem markInUse_cons_notmem (ids : List GoStr) (k : GoStr) (v : Nat)
    (rest : Pool) (h : k ∉ ids) :
    markInUse ids ((k, v) :: rest) = (k, v) :: markInUse ids rest := by
  induction ids generalizing rest with
  | nil => rfl
  | cons b t ih =>
    have hbk : ¬ k = b := fun hh => h (hh ▸ List.mem_cons_self b t)
    rw [markInUse_cons, markInUse_cons,
      show goSet ((k, v) :: rest) b 1 = (k, v) :: goSet rest b 1 from by
        simp [goSet, hbk]]
    exact ih _ (fun hh => h (List.mem_cons_of_mem b hh))

theorem goSet_markInUse_comm (ids : List GoStr) (m : Pool) (a : GoStr) (x : Nat)
    (hna : a ∉ ids) (ha : lookupOpt m a ≠ none) :
    goSet (markInUse ids m) a x = markInUse ids (goSet m a x) := by
  induction ids generalizing m with
  | nil => rfl
  | cons b t ih =>
    have hab : a ≠ b := fun hh => hna (hh ▸ List.mem_cons_self b t)
    rw [markInUse_cons, markInUse_cons,
      ih _ (fun hh => hna (List.mem_cons_of_mem b hh))
        (lookupOpt_goSet_ne_none m a b 1 ha),
      goSet_comm_ne m a b x 1 hab ha]

theorem restoreList_markInUse (ids : List GoStr) (m : Pool)
    (hnd : ids.Nodup) (h : ∀ k ∈ ids, lookupOpt m k = some 0) :
    restoreList ids (markInUse ids m) = m := by
  induction ids generalizing m with
  | nil => rfl
  | cons a t ih =>
    have hat : a ∉ t := (List.nodup_cons.mp hnd).1
    have ha : lookupOpt m a = some 0 := h a (List.mem_cons_self a t)
    have hane : lookupOpt (goSet m a 1) a ≠ none := by
      rw [lookupOpt_goSet_self]
      exact fun hh => nomatch hh
    rw [restoreList_cons, markInUse_cons,
      goSet_markInUse_comm t (goSet m a 1) a 0 hat hane,
      goSet_goSet_same, goSet_eq_of_lookupOpt m a 0 ha]
    exact ih m (List.nodup_cons.mp hnd).2
      (fun k hk => h k (List.mem_cons_of_mem a hk))

/-! Key-set preservation under apply and restore. -/

theorem length_keys (m : Pool) : (keys m).length = m.length := by
  simp [keys]

theorem mem_keys_of_lookupOpt_eq_some (m : Pool) (k : GoStr) (v : Nat)
    (h : lookupOpt m k = some v) : k ∈ keys m :=
  (lookupOpt_ne_none_iff m k).mp (fun hh => by rw [h] at hh; exact nomatch hh)

theorem keys_restoreList (ids : List GoStr) (m : Pool)
    (h : ∀ x ∈ ids, x ∈ keys m) : keys (restoreList ids m) = keys m := by
  induction ids generalizing m with
  | nil => rfl
  | cons a t ih =>
    rw [restoreList_cons]
    have hkeys : keys (goSet m a 0) = keys m :=
      keys_goSet_of_mem m a 0
        ((lookupOpt_ne_none_iff m a).mpr (h a (List.mem_cons_self a t)))
    rw [ih (goSet m a 0)
      (fun x hx => hkeys ▸ h x (List.mem_cons_of_mem a hx)), hkeys]

theorem keys_gpuRestore (avail : Nat) (m : Pool) (ids : List GoStr)
    (h : ∀ x ∈ ids, x ∈ keys m) : keys (gpuRestore avail m ids) = keys m := by
  rw [gpuRestore]
  by_cases hguard : ids.length = 0 ∨ avail < ids.length
  · rw [if_pos hguard]
  · rw [if_neg hguard]
    exact keys_restoreList ids m h

theorem keys_gpuApplyGo (m : Pool) (need : Nat) :
    keys (gpuApplyGo m need).1 = keys m := by
  induction m generalizing need with
  | nil => rfl
  | cons p rest ih =>
    obtain ⟨k, v⟩ := p
    by_cases hv : v = 0
    · subst hv
      by_cases hn : need = 1
      · simp [gpuApplyGo, hn]
      · simp [gpuApplyGo, hn, ih]
    · simp [gpuApplyGo, hv, ih]

theorem cpuApplyGo_keys (num : Nat) (idxs : List Nat) :
    ∀ (m : Pool) (acc : List GoStr),
    (∀ i ∈ idxs, natChars i ∈ keys m) →
    keys (cpuApplyGo num idxs m acc).1 = keys m ∧
    (∀ k ∈ (cpuApplyGo num idxs m acc).2, k ∈ acc ∨ k ∈ keys m) := by
  induction idxs with
  | nil => exact fun m acc _ => ⟨rfl, fun k hk => Or.inl hk⟩
  | cons i t ih =>
    intro m acc hmem
    have hks : natChars i ∈ keys m := hmem i (List.mem_cons_self i t)
    by_cases h0 : goGet m (natChars i) = 0
    · have hkeys : keys (goSet m (natChars i) 1) = keys m :=
        keys_goSet_of_mem m (natChars i) 1 ((lookupOpt_ne_none_iff m _).mpr hks)
      by_cases hlen : (acc ++ [natChars i]).length = num
      · simp only [cpuApplyGo]
        rw [if_pos h0, if_pos hlen]
        refine ⟨hkeys, fun k hk => ?_⟩
        rcases List.mem_append.mp hk with h1 | h2
        · exact Or.inl h1
        · rw [List.mem_singleton.mp h2]
          exact Or.inr hks
      · simp only [cpuApplyGo]
        rw [if_pos h0, if_neg hlen]
        obtain ⟨e1, e2⟩ := ih (goSet m (natChars i) 1) (acc ++ [natChars i])
          (fun j hj => hkeys ▸ hmem j (List.mem_cons_of_mem i hj))
        refine ⟨by rw [e1, hkeys], fun k hk => ?_⟩
        rcases e2 k hk with h1 | h2
        · rcases List.mem_append.mp h1 with h3 | h4
          · exact Or.inl h3
          · rw [List.mem_singleton.mp h4]
            exact Or.inr hks
        · exact Or.inr (hkeys ▸ h2)
    · simp only [cpuApplyGo]
      rw [if_neg h0]
      exact ih m acc (fun j hj => hmem j (List.mem_cons_of_mem i hj))

/-- One call against a scheduler: the argument of `apply` or of
`restore`. -/
inductive SchedCall where
  | apply (n : Nat)
  | restore (ids : List GoStr)
  deriving DecidableEq, Repr

/-- The pool after one `gpuScheduler` call (for a deadlocked apply, the
pool at the moment of blocking). -/
def gpuStep (avail : Nat) (m : Pool) : SchedCall → Pool
  | .apply n =>
    match gpuApply avail m n with
    | .ok _ m2 => m2
    | .errInvalid m2 => m2
    | .errNotEnough m2 => m2
    | .deadlock m2 => m2
  | .restore ids => gpuRestore avail m ids

/-- The pool after a sequence of `gpuScheduler` calls. -/
def gpuRun (avail : Nat) : Pool → List SchedCall → Pool
  | m, [] => m
  | m, c :: rest => gpuRun avail (gpuStep avail m c) rest

/-- The pool after one `cpuScheduler` call. -/
def cpuStep (avail : Nat) (m : Pool) : SchedCall → Pool
  | .apply n =>
    match cpuApply avail m n with
    | .ok _ m2 => m2
    | .errInvalid m2 => m2
    | .errNotEnough m2 => m2
  | .restore ids => cpuRestore m ids

/-- The pool after a sequence of `cpuScheduler` calls. -/
def cpuRun (avail : Nat) : Pool → List SchedCall → Pool
  | m, [] => m
  | m, c :: rest => cpuRun avail (cpuStep avail m c) rest

theorem keys_gpuStep (avail : Nat) (m : Pool) (c : SchedCall)
    (h : ∀ ids, c = .restore ids → ∀ x ∈ ids, x ∈ keys m) :
    keys (gpuStep avail m c) = keys m := by
  cases c with
  | apply n =>
    rw [gpuStep, gpuApply]
    by_cases hguard : n = 0 ∨ avail < n
    · rw [if_pos hguard]
    · rw [if_neg hguard]
      by_cases hlen : (gpuApplyGo m n).2.length < n
      · simp only [if_pos hlen]
        by_cases hg2 : (gpuApplyGo m n).2.length = 0 ∨
            avail < (gpuApplyGo m n).2.length
        · simp only [if_pos hg2]
          exact keys_gpuApplyGo m n
        · simp only [if_neg hg2]
          exact keys_gpuApplyGo m n
      · simp only [if_neg hlen]
        exact keys_gpuApplyGo m n
  | restore ids =>
    exact keys_gpuRestore avail m ids (h ids rfl)

theorem keys_cpuStep (avail : Nat) (m : Pool) (c : SchedCall)
    (hwf : ∀ i, i < m.length → natChars i ∈ keys m)
    (h : ∀ ids, c = .restore ids → ∀ x ∈ ids, x ∈ keys m) :
    keys (cpuStep avail m c) = keys m := by
  cases c with
  | apply n =>
    rw [cpuStep, cpuApply]
    by_cases hguard : n = 0 ∨ avail < n
    · rw [if_pos hguard]
    · rw [if_neg hguard]
      have hidx : ∀ i ∈ List.range
          (sortInts ((keys m).map goAtoi)).length, natChars i ∈ keys m := by
        intro i hi
        rw [List.mem_range, length_sortInts, List.length_map, length_keys] at hi
        exact hwf i hi
      obtain ⟨e1, e2⟩ := cpuApplyGo_keys n
        (List.range (sortInts ((keys m).map goAtoi)).length) m [] hidx
      by_cases hlen : (cpuApplyGo n (List.range
          (sortInts ((keys m).map goAtoi)).length) m []).2.length < n
      · rw [if_pos hlen]
        have hmem2 : ∀ x ∈ (cpuApplyGo n (List.range
            (sortInts ((keys m).map goAtoi)).length) m []).2,
            x ∈ keys (cpuApplyGo n (List.range
              (sortInts ((keys m).map goAtoi)).length) m []).1 := by
          intro x hx
          rcases e2 x hx with h1 | h2
          · exact absurd h1 (List.not_mem_nil x)
          · rw [e1]
            exact h2
        rw [keys_restoreList _ _ hmem2]
        exact e1
      · rw [if_neg hlen]
        exact e1
  | restore ids =>
    exact keys_restoreList ids m (h ids rfl)

theorem keys_gpuRun (avail : Nat) (calls : List SchedCall) :
    ∀ (m : Pool),
    (∀ c ∈ calls, ∀ ids, c = SchedCall.restore ids → ∀ x ∈ ids, x ∈ keys m) →
    keys (gpuRun avail m calls) = keys m := by
  induction calls with
  | nil => exact fun m _ => rfl
  | cons c rest ih =>
    intro m h
    have hstep : keys (gpuStep avail m c) = keys m :=
      keys_gpuStep avail m c (h c (List.mem_cons_self c rest))
    rw [gpuRun, ih (gpuStep avail m c)
      (fun c2 hc2 ids hids x hx =>
        hstep ▸ h c2 (List.mem_cons_of_mem c hc2) ids hids x hx), hstep]

theorem keys_cpuRun (avail : Nat) (calls : List SchedCall) :
    ∀ (m : Pool),
    (∀ i, i < m.length → natChars i ∈ keys m) →
    (∀ c ∈ calls, ∀ ids, c = SchedCall.restore ids → ∀ x ∈ ids, x ∈ keys m) →
    keys (cpuRun avail m calls) = keys m := by
  induction calls with
  | nil => exact fun m _ _ => rfl
  | cons c rest ih =>
    intro m hwf h
    have hstep : keys (cpuStep avail m c) = keys m :=
      keys_cpuStep avail m c hwf (h c (List.mem_cons_self c rest))
    have hlen : (cpuStep avail m c).length = m.length := by
      rw [← length_keys, hstep, length_keys]
    rw [cpuRun, ih (cpuStep avail m c)
      (fun i hi => hstep ▸ hwf i (hlen ▸ hi))
      (fun c2 hc2 ids hids x hx =>
        hstep ▸ h c2 (List.mem_cons_of_mem c hc2) ids hids x hx), hstep]

theorem lookupOpt_goDel_self (m : Pool) (k : GoStr)
    (hnd : (keys m).Nodup) : lookupOpt (goDel m k) k = none := by
  induction m with
  | nil => rfl
  | cons p rest ih =>
    obtain ⟨a, w⟩ := p
    by_cases ha : a = k
    · subst ha
      rw [goDel, if_pos rfl]
      have hnotin : a ∉ keys rest := (List.nodup_cons.mp hnd).1
      by_cases hnone : lookupOpt rest a = none
      · exact hnone
      · exact absurd ((lookupOpt_ne_none_iff rest a).mp hnone) hnotin
    · rw [goDel, if_neg ha, lookupOpt, if_neg ha]
      exact ih (List.nodup_cons.mp hnd).2

theorem splitOnC_no_sep (sep : Char) (s : GoStr) (h : sep ∉ s) :
    splitOnC sep s = [s] := by
  induction s with
  | nil => rfl
  | cons c rest ih =>
    have hc : ¬ c = sep := fun hh => h (hh ▸ List.mem_cons_self c rest)
    rw [splitOnC, if_neg hc, ih (fun hh => h (List.mem_cons_of_mem c hh))]

/-! Characterization of a successful apply, and the restore
round trip. -/

theorem gpuApplyGo_spec (m : Pool) : ∀ (need : Nat), (keys m).Nodup →
    0 < need →
    (gpuApplyGo m need).2.Nodup ∧
    (∀ k ∈ (gpuApplyGo m need).2, lookupOpt m k = some 0) ∧
    (gpuApplyGo m need).1 = markInUse (gpuApplyGo m need).2 m ∧
    (gpuApplyGo m need).2.length ≤ need := by
  induction m with
  | nil =>
    intro need _ _
    refine ⟨List.nodup_nil, ?_, rfl, ?_⟩
    · intro k hk
      exact absurd hk (List.not_mem_nil k)
    · show ([] : List GoStr).length ≤ need
      simp
  | cons p rest ih =>
    intro need hnd hpos
    obtain ⟨k, v⟩ := p
    have hknotkeys : k ∉ keys rest := (List.nodup_cons.mp hnd).1
    have hndrest : (keys rest).Nodup := (List.nodup_cons.mp hnd).2
    by_cases hv : v = 0
    · subst hv
      by_cases hn : need = 1
      · subst hn
        simp only [gpuApplyGo, if_pos rfl]
        refine ⟨List.nodup_singleton k, ?_, ?_, by simp⟩
        · intro k2 hk2
          rw [List.mem_singleton.mp hk2]
          simp [lookupOpt]
        · show (k, 1) :: rest = markInUse [k] ((k, 0) :: rest)
          rw [markInUse_cons, markInUse_nil]
          simp [goSet]
      · have hpos2 : 0 < need - 1 := by omega
        obtain ⟨ihnd, ihlk, ihmap, ihlen⟩ := ih (need - 1) hndrest hpos2
        have hknotin : k ∉ (gpuApplyGo rest (need - 1)).2 := by
          intro hin
          exact hknotkeys (mem_keys_of_lookupOpt_eq_some rest k 0 (ihlk k hin))
        simp only [gpuApplyGo, if_pos rfl, if_neg hn]
        refine ⟨List.nodup_cons.mpr ⟨hknotin, ihnd⟩, ?_, ?_, by simp; omega⟩
        · intro k2 hk2
          rcases List.mem_cons.mp hk2 with h1 | h2
          · subst h1
            simp [lookupOpt]
          · have hk2ne : ¬ k = k2 := by
              intro hh
              exact hknotin (hh ▸ h2)
            rw [lookupOpt, if_neg hk2ne]
            exact ihlk k2 h2
        · show (k, 1) :: (gpuApplyGo rest (need - 1)).1 =
            markInUse (k :: (gpuApplyGo rest (need - 1)).2) ((k, 0) :: rest)
          rw [markInUse_cons,
            show goSet ((k, 0) :: rest) k 1 = (k, 1) :: rest from by
              simp [goSet],
            markInUse_cons_notmem _ k 1 rest hknotin, ihmap]
    · obtain ⟨ihnd, ihlk, ihmap, ihlen⟩ := ih need hndrest hpos
      have hknotin : k ∉ (gpuApplyGo rest need).2 := by
        intro hin
        exact hknotkeys (mem_keys_of_lookupOpt_eq_some rest k 0 (ihlk k hin))
      simp only [gpuApplyGo, if_neg hv]
      refine ⟨ihnd, ?_, ?_, ihlen⟩
      · intro k2 hk2
        have hk2ne : ¬ k = k2 := by
          intro hh
          exact hknotin (hh ▸ hk2)
        rw [lookupOpt, if_neg hk2ne]
        exact ihlk k2 hk2
      · rw [markInUse_cons_notmem _ k v rest hknotin, ihmap]

theorem gpuApply_ok_spec (avail : Nat) (m : Pool) (num : Nat)
    (ids : List GoStr) (m2 : Pool) (hnd : (keys m).Nodup)
    (h : gpuApply avail m num = .ok ids m2) :
    ids.Nodup ∧ (∀ k ∈ ids, lookupOpt m k = some 0) ∧
    m2 = markInUse ids m ∧ ids.length = num ∧ 0 < num ∧ num ≤ avail := by
  simp only [gpuApply] at h
  by_cases hguard : num = 0 ∨ avail < num
  · rw [if_pos hguard] at h
    exact nomatch h
  · rw [if_neg hguard] at h
    have hpos : 0 < num := by omega
    have hle : num ≤ avail := by omega
    obtain ⟨s1, s2, s3, s4⟩ := gpuApplyGo_spec m num hnd hpos
    by_cases hlen : (gpuApplyGo m num).2.length < num
    · rw [if_pos hlen] at h
      by_cases hg2 : (gpuApplyGo m num).2.length = 0 ∨
          avail < (gpuApplyGo m num).2.length
      · rw [if_pos hg2] at h
        exact nomatch h
      · rw [if_neg hg2] at h
        exact nomatch h
    · rw [if_neg hlen] at h
      injection h with h1 h2
      subst h1
      subst h2
      exact ⟨s1, s2, s3, by omega, hpos, hle⟩

theorem gpuRestore_after_apply (avail : Nat) (m : Pool) (num : Nat)
    (ids : List GoStr) (m2 : Pool) (hnd : (keys m).Nodup)
    (h : gpuApply avail m num = .ok ids m2) :
    gpuRestore avail m2 ids = m := by
  obtain ⟨hids, hlk, hm2, hlen, hpos, hle⟩ :=
    gpuApply_ok_spec avail m num ids m2 hnd h
  rw [gpuRestore, if_neg (by omega), hm2]
  exact restoreList_markInUse ids m hids hlk

theorem goGet_goSet_self (m : Pool) (k : GoStr) (v : Nat) :
    goGet (goSet m k v) k = v := by
  rw [goGet, lookupOpt_goSet_self]
  rfl

theorem goGet_goSet_ne (m : Pool) (k a : GoStr) (v : Nat) (h : a ≠ k) :
    goGet (goSet m k v) a = goGet m a := by
  rw [goGet, lookupOpt_goSet_ne m k a v h, goGet]

theorem cpuApplyGo_spec (num : Nat) (idxs : List Nat) :
    ∀ (m : Pool) (acc : List GoStr),
    ∃ newIds,
      (cpuApplyGo num idxs m acc).2 = acc ++ newIds ∧
      (cpuApplyGo num idxs m acc).1 = markInUse newIds m ∧
      newIds.Nodup ∧
      (∀ k ∈ newIds, goGet m k = 0 ∧ k ∈ idxs.map natChars) ∧
      (acc.length < num → (cpuApplyGo num idxs m acc).2.length ≤ num) := by
  induction idxs with
  | nil =>
    intro m acc
    refine ⟨[], by simp [cpuApplyGo], rfl, List.nodup_nil, ?_, ?_⟩
    · intro k hk
      exact absurd hk (List.not_mem_nil k)
    · intro hlt
      show acc.length ≤ num
      omega
  | cons i t ih =>
    intro m acc
    by_cases h0 : goGet m (natChars i) = 0
    · by_cases hlen : (acc ++ [natChars i]).length = num
      · refine ⟨[natChars i], ?_, ?_, List.nodup_singleton _, ?_, ?_⟩
        · simp only [cpuApplyGo]
          rw [if_pos h0, if_pos hlen]
        · simp only [cpuApplyGo]
          rw [if_pos h0, if_pos hlen, markInUse_cons, markInUse_nil]
        · intro k hk
          rw [List.mem_singleton.mp hk]
          exact ⟨h0, List.mem_map_of_mem natChars (List.mem_cons_self i t)⟩
        · intro hlt
          simp only [cpuApplyGo]
          rw [if_pos h0, if_pos hlen]
          show (acc ++ [natChars i]).length ≤ num
          omega
      · obtain ⟨nid, e2, e1, endup, elk, elen⟩ :=
          ih (goSet m (natChars i) 1) (acc ++ [natChars i])
        have hknotin : natChars i ∉ nid := by
          intro hin
          have := (elk (natChars i) hin).1
          rw [goGet_goSet_self] at this
          exact nomatch this
        refine ⟨natChars i :: nid, ?_, ?_, List.nodup_cons.mpr ⟨hknotin, endup⟩,
          ?_, ?_⟩
        · simp only [cpuApplyGo]
          rw [if_pos h0, if_neg hlen, e2, List.append_assoc]
          rfl
        · simp only [cpuApplyGo]
          rw [if_pos h0, if_neg hlen, e1, markInUse_cons]
        · intro k hk
          rcases List.mem_cons.mp hk with h1 | h2
          · subst h1
            exact ⟨h0, List.mem_map_of_mem natChars (List.mem_cons_self i t)⟩
          · have hkne : k ≠ natChars i := by
              intro hh
              exact hknotin (hh ▸ h2)
            obtain ⟨hg, hm⟩ := elk k h2
            rw [goGet_goSet_ne m (natChars i) k 1 hkne] at hg
            refine ⟨hg, ?_⟩
            rw [List.map_cons]
            exact List.mem_cons_of_mem _ hm
        · intro hlt
          simp only [cpuApplyGo]
          rw [if_pos h0, if_neg hlen]
          have hle : (acc ++ [natChars i]).length ≤ num := by
            simp only [List.length_append, List.length_singleton]
            omega
          have hlt2 : (acc ++ [natChars i]).length < num := by
            rcases Nat.lt_or_ge (acc ++ [natChars i]).length num with h | h
            · exact h
            · exact absurd (Nat.le_antisymm hle h) hlen
          exact elen hlt2
    · obtain ⟨nid, e2, e1, endup, elk, elen⟩ := ih m acc
      refine ⟨nid, ?_, ?_, endup, ?_, ?_⟩
      · simp only [cpuApplyGo]
        rw [if_neg h0, e2]
      · simp only [cpuApplyGo]
        rw [if_neg h0, e1]
      · intro k hk
        obtain ⟨hg, hm⟩ := elk k hk
        refine ⟨hg, ?_⟩
        rw [List.map_cons]
        exact List.mem_cons_of_mem _ hm
      · intro hlt
        simp only [cpuApplyGo]
        rw [if_neg h0]
        exact elen hlt

theorem cpuApply_ok_spec (avail : Nat) (m : Pool) (num : Nat)
    (cs : GoStr) (m2 : Pool) (h : cpuApply avail m num = .ok cs m2) :
    ∃ ids, cs = trimComma (joinComma ids) ∧ m2 = markInUse ids m ∧
      ids.Nodup ∧ ids ≠ [] ∧
      (∀ k ∈ ids, goGet m k = 0 ∧ ∃ i, i < m.length ∧ k = natChars i) := by
  simp only [cpuApply] at h
  by_cases hguard : num = 0 ∨ avail < num
  · rw [if_pos hguard] at h
    exact nomatch h
  · rw [if_neg hguard] at h
    obtain ⟨nid, e2, e1, endup, elk, elen⟩ := cpuApplyGo_spec num
      (List.range (sortInts ((keys m).map goAtoi)).length) m []
    by_cases hlen : (cpuApplyGo num
        (List.range (sortInts ((keys m).map goAtoi)).length) m []).2.length <
        num
    · rw [if_pos hlen] at h
      exact nomatch h
    · rw [if_neg hlen] at h
      injection h with h1 h2
      rw [List.nil_append] at e2
      refine ⟨nid, by rw [← h1, e2], by rw [← h2, e1], endup, ?_, ?_⟩
      · intro hnil
        rw [e2, hnil] at hlen
        exact hlen (by simp; omega)
      · intro k hk
        obtain ⟨hg, hm⟩ := elk k hk
        obtain ⟨i, hi, hki⟩ := List.mem_map.mp hm
        rw [List.mem_range, length_sortInts, List.length_map, length_keys]
          at hi
        exact ⟨hg, i, hi, hki.symm⟩

/-! Facts about decimal numerals. -/

theorem digitsRevFuel_lt_ten (fuel : Nat) :
    ∀ (n : Nat) (d : Nat), d ∈ digitsRevFuel fuel n → d < 10 := by
  induction fuel with
  | zero =>
    intro n d hd
    exact absurd hd (List.not_mem_nil d)
  | succ f ih =>
    intro n d hd
    rw [digitsRevFuel] at hd
    by_cases hn : n = 0
    · rw [if_pos hn] at hd
      exact absurd hd (List.not_mem_nil d)
    · rw [if_neg hn] at hd
      rcases List.mem_cons.mp hd with h1 | h2
      · rw [h1]
        exact Nat.mod_lt n (by omega)
      · exact ih (n / 10) d h2

theorem natChars_ne_nil (n : Nat) : natChars n ≠ [] := by
  rw [natChars]
  by_cases hn : n = 0
  · rw [if_pos hn]
    exact fun h => nomatch h
  · rw [if_neg hn]
    intro h
    rw [List.map_eq_nil_iff, List.reverse_eq_nil_iff] at h
    obtain ⟨f, rfl⟩ : ∃ f, n = f + 1 := ⟨n - 1, by omega⟩
    rw [digitsRevFuel, if_neg hn] at h
    exact nomatch h

theorem digitChar_ne_comma (d : Nat) (hd : d < 10) : Nat.digitChar d ≠ ',' := by
  interval_cases d <;> decide

theorem comma_notin_natChars (n : Nat) : ',' ∉ natChars n := by
  rw [natChars]
  by_cases hn : n = 0
  · rw [if_pos hn]
    decide
  · rw [if_neg hn]
    intro h
    obtain ⟨d, hd, hdc⟩ := List.mem_map.mp h
    rw [List.mem_reverse] at hd
    exact digitChar_ne_comma d (digitsRevFuel_lt_ten n n d hd) hdc

/-! Round trip of joining with commas, trimming and splitting. -/

theorem joinComma_two (x y : GoStr) (t : List GoStr) :
    joinComma (x :: y :: t) = x ++ ',' :: joinComma (y :: t) := rfl

theorem splitOnC_append_sep (x r : GoStr) (hx : ',' ∉ x) :
    splitOnC ',' (x ++ ',' :: r) = x :: splitOnC ',' r := by
  induction x with
  | nil =>
    rw [List.nil_append, splitOnC, if_pos rfl]
  | cons c x2 ih =>
    have hc : ¬ c = ',' := fun hh => hx (hh ▸ List.mem_cons_self c x2)
    rw [List.cons_append, splitOnC, if_neg hc,
      ih (fun hh => hx (List.mem_cons_of_mem c hh))]

theorem splitOnC_joinComma (parts : List GoStr) (hne : parts ≠ [])
    (hcf : ∀ p ∈ parts, ',' ∉ p) :
    splitOnC ',' (joinComma parts) = parts := by
  induction parts with
  | nil => exact absurd rfl hne
  | cons x t ih =>
    cases t with
    | nil =>
      show splitOnC ',' (joinComma [x]) = [x]
      exact splitOnC_no_sep ',' x (hcf x (List.mem_cons_self x []))
    | cons y t2 =>
      rw [joinComma_two,
        splitOnC_append_sep x _ (hcf x (List.mem_cons_self x (y :: t2))),
        ih (fun h => nomatch h)
          (fun p hp => hcf p (List.mem_cons_of_mem x hp))]

theorem mem_of_getLast?_eq (l : GoStr) (a : Char) (h : l.getLast? = some a) :
    a ∈ l := by
  induction l with
  | nil => exact nomatch h
  | cons c t ih =>
    cases t with
    | nil =>
      rw [List.getLast?_singleton] at h
      rw [← Option.some_inj.mp h]
      exact List.mem_cons_self c []
    | cons d t2 =>
      rw [List.getLast?_cons_cons] at h
      exact List.mem_cons_of_mem c (ih h)

theorem joinComma_ne_nil (x : GoStr) (t : List GoStr) (hx : x ≠ []) :
    joinComma (x :: t) ≠ [] := by
  cases t with
  | nil => exact hx
  | cons y t2 =>
    rw [joinComma_two]
    cases x with
    | nil => exact absurd rfl hx
    | cons c x2 => exact fun h => nomatch h

theorem joinComma_head (parts : List GoStr) (hne : parts ≠ [])
    (hp : ∀ p ∈ parts, p ≠ []) :
    ∃ c t2, joinComma parts = c :: t2 ∧ ∃ p ∈ parts, c ∈ p := by
  cases parts with
  | nil => exact absurd rfl hne
  | cons x t =>
    have hx := hp x (List.mem_cons_self x t)
    cases x with
    | nil => exact absurd rfl hx
    | cons c x2 =>
      cases t with
      | nil =>
        exact ⟨c, x2, rfl, (c :: x2),
          List.mem_cons_self _ _, List.mem_cons_self c x2⟩
      | cons y t2 =>
        refine ⟨c, x2 ++ ',' :: joinComma (y :: t2), ?_, (c :: x2),
          List.mem_cons_self _ _, List.mem_cons_self c x2⟩
        rw [joinComma_two, List.cons_append]

theorem joinComma_getLast (parts : List GoStr) :
    ∀ c, (joinComma parts).getLast? = some c →
    (∀ p ∈ parts, p ≠ []) → ∃ p ∈ parts, c ∈ p := by
  induction parts with
  | nil => exact fun c h _ => nomatch h
  | cons x t ih =>
    intro c h hp
    cases t with
    | nil =>
      exact ⟨x, List.mem_cons_self x [], mem_of_getLast?_eq x c h⟩
    | cons y t2 =>
      rw [joinComma_two, List.getLast?_append_cons] at h
      have hjne : joinComma (y :: t2) ≠ [] :=
        joinComma_ne_nil y t2 (hp y (List.mem_cons_of_mem x
          (List.mem_cons_self y t2)))
      obtain ⟨d, l2, hd⟩ := List.exists_cons_of_ne_nil hjne
      rw [hd, List.getLast?_cons_cons, ← hd] at h
      obtain ⟨p, hpm, hcp⟩ := ih c h
        (fun p hpi => hp p (List.mem_cons_of_mem x hpi))
      exact ⟨p, List.mem_cons_of_mem x hpm, hcp⟩

theorem trimComma_eq_self (s : GoStr) (c0 : Char) (hhead : s.head? = some c0)
    (hc0 : c0 ≠ ',') (hlast : ∀ c, s.getLast? = some c → c ≠ ',') :
    trimComma s = s := by
  cases s with
  | nil => exact nomatch hhead
  | cons c t =>
    have hc : c ≠ ',' := by
      rw [show c = c0 from Option.some_inj.mp hhead]
      exact hc0
    have hrevne : (c :: t).reverse ≠ [] := by simp
    obtain ⟨d, r2, hr⟩ := List.exists_cons_of_ne_nil hrevne
    have hd : (c :: t).getLast? = some d := by
      rw [← List.head?_reverse, hr]
      rfl
    have hdne : d ≠ ',' := hlast d hd
    rw [trimComma,
      show (c :: t).dropWhile (fun x => x = ',') = c :: t from by
        rw [List.dropWhile_cons]
        simp [hc],
      hr,
      show (d :: r2).dropWhile (fun x => x = ',') = d :: r2 from by
        rw [List.dropWhile_cons]
        simp [hdne],
      ← hr, List.reverse_reverse]

theorem trimComma_joinComma (parts : List GoStr) (hne : parts ≠ [])
    (hp : ∀ p ∈ parts, p ≠ [] ∧ ',' ∉ p) :
    trimComma (joinComma parts) = joinComma parts := by
  obtain ⟨c, t2, hj, p, hpm, hcp⟩ :=
    joinComma_head parts hne (fun q hq => (hp q hq).1)
  refine trimComma_eq_self (joinComma parts) c (by rw [hj]; rfl) ?_ ?_
  · intro hh
    exact (hp p hpm).2 (hh ▸ hcp)
  · intro c2 h2 hh
    obtain ⟨q, hq, hcq⟩ := joinComma_getLast parts c2 h2
      (fun q hq => (hp q hq).1)
    exact (hp q hq).2 (hh ▸ hcq)

theorem goDel_goSet_absent (m : Pool) (k : GoStr) (v : Nat)
    (h : lookupOpt m k = none) : goDel (goSet m k v) k = m := by
  induction m with
  | nil => simp [goSet, goDel]
  | cons p rest ih =>
    obtain ⟨a, w⟩ := p
    by_cases ha : a = k
    · rw [lookupOpt, if_pos ha] at h
      exact nomatch h
    · rw [lookupOpt, if_neg ha] at h
      rw [goSet, if_neg ha, goDel, if_neg ha, ih h]

theorem lookupOpt_of_goGet_eq_zero (m : Pool) (k : GoStr)
    (hmem : k ∈ keys m) (hg : goGet m k = 0) : lookupOpt m k = some 0 := by
  cases hl : lookupOpt m k with
  | none =>
    exact absurd hl ((lookupOpt_ne_none_iff m k).mpr hmem)
  | some w =>
    rw [goGet, hl, Option.getD_some] at hg
    rw [hg]

/-- On a create failure, `runContainer` returns the error with the
acquired host ports still in-use and the version counter rolled back;
nothing else in the state changes.  The hypothesis on the stored
version mirrors the registry discipline (stored versions are at least
one). -/
theorem runContainer_create_fail (o : Oracle) (name : GoStr)
    (info : CtrInfo) (onlyCreate : Bool) (s : SchedState)
    (pids : List GoStr) (pm : Pool)
    (hcr : o.createOk = false)
    (hport : 0 < info.portKeys.length)
    (hpa : portApply s.portAvail s.port info.portKeys.length =
      some (pids, pm))
    (hvm : ∀ v0, lookupOpt s.vmap name = some v0 → 0 < v0) :
    runContainer o name info onlyCreate s =
      (.error .createFailed, { s with port := pm }) := by
  obtain ⟨ga, g, ca, c, pa, p, vm, q, rp⟩ := s
  simp only [runContainer] at *
  rw [if_pos hport, hpa]
  simp only []
  rw [if_pos hcr]
  cases hlook : lookupOpt vm name with
  | none =>
    simp only [goGet, hlook, Option.getD_none, Nat.zero_add]
    rw [if_true, goDel_goSet_absent vm name 1 hlook]
  | some v0 =>
    have hv0 : 0 < v0 := hvm v0 hlook
    simp only [goGet, hlook, Option.getD_some]
    rw [if_neg (by omega : ¬ v0 + 1 = 1)]
    have hsub : v0 + 1 - 1 = v0 := by omega
    rw [hsub, goSet_goSet_same, goSet_eq_of_lookupOpt vm name v0 hlook]

/-! Theorems.  First the memory-parsing claims. -/

theorem goTrimSuffix_append (s u : GoStr) : goTrimSuffix (s ++ u) u = s := by
  unfold goTrimSuffix
  rw [if_pos]
  · rw [List.length_append]
    have h2 : s.length + u.length - u.length = s.length := by omega
    rw [h2, List.take_left]
  · rw [List.isSuffixOf_iff_suffix]
    exact List.suffix_append s u

theorem drop_append_two (s u : GoStr) (hu : u.length = 2) :
    (s ++ u).drop ((s ++ u).length - 2) = u := by
  rw [List.length_append, hu]
  have h2 : s.length + 2 - 2 = s.length := by omega
  rw [h2, List.drop_left]

theorem memoryGetBytes_append_unit (s u : GoStr) (hu : u.length = 2) :
    MemoryGetBytes (s ++ u) =
      (match parseDecChars s with
       | none => MemOut.err
       | some value => MemOut.ok (ratTrunc (value * (MemoryUnitMap u : ℚ)))) := by
  unfold MemoryGetBytes
  have hlen : (s ++ u).length = s.length + 2 := by rw [List.length_append, hu]
  rw [if_neg (by omega), drop_append_two s u hu, goTrimSuffix_append]

/-- C7: for every finite binary64 value `v` and unit `u` among KB, MB,
GB, TB, parsing the string `v ++ u` yields `int64(v * 1024^k)` with
`k = 1, 2, 3, 4` respectively (the conversion truncating toward zero);
the range bound keeps the product inside `int64`, where Go's conversion
is defined. -/
theorem memory_get_bytes_unit_scaling (s : GoStr) (v : ℚ) (u : GoStr) (k : Nat)
    (hs : parseDecChars s = some v) (_hv : IsBinary64 v)
    (hu : (u, k) ∈ [(gstr "KB", 1), (gstr "MB", 2), (gstr "GB", 3), (gstr "TB", 4)])
    (_hr : |v| * 1024 ^ 4 < 2 ^ 63) :
    MemoryGetBytes (s ++ u) = .ok (ratTrunc (v * 1024 ^ k)) := by
  simp only [List.mem_cons, List.mem_singleton, Prod.mk.injEq] at hu
  rcases hu with ⟨hup, hk⟩ | ⟨hup, hk⟩ | ⟨hup, hk⟩ | ⟨hup, hk⟩ | h
  · subst hup; subst hk
    rw [memoryGetBytes_append_unit _ _ (by rfl), hs,
      show MemoryUnitMap (gstr "KB") = 1024 ^ 1 from by decide]
    norm_num
  · subst hup; subst hk
    rw [memoryGetBytes_append_unit _ _ (by rfl), hs,
      show MemoryUnitMap (gstr "MB") = 1024 ^ 2 from by decide]
    norm_num
  · subst hup; subst hk
    rw [memoryGetBytes_append_unit _ _ (by rfl), hs,
      show MemoryUnitMap (gstr "GB") = 1024 ^ 3 from by decide]
    norm_num
  · subst hup; subst hk
    rw [memoryGetBytes_append_unit _ _ (by rfl), hs,
      show MemoryUnitMap (gstr "TB") = 1024 ^ 4 from by decide]
    norm_num
  · exact absurd h (by simp)

theorem parseDecChars_eight : parseDecChars (gstr "8") = some 8 := by
  show parseDecChars ['8'] = some 8
  unfold parseDecChars
  rw [show stripSign ['8'] = (1, ['8']) from by simp [stripSign]]
  rw [show splitOnC '.' ['8'] = [['8']] from by decide]
  norm_num [show (digitsVal ['8'] : Nat) = 8 from by decide,
    show List.all ['8'] Char.isDigit = true from by decide]

theorem parseDecChars_one_point_five :
    parseDecChars (gstr "1.5") = some (3 / 2) := by
  show parseDecChars ['1', '.', '5'] = some (3 / 2)
  unfold parseDecChars
  rw [show stripSign ['1', '.', '5'] = (1, ['1', '.', '5']) from by simp [stripSign]]
  rw [show splitOnC '.' ['1', '.', '5'] = [['1'], ['5']] from by decide]
  norm_num [show (digitsVal ['1', '5'] : Nat) = 15 from by decide,
    show List.all ['1'] Char.isDigit = true from by decide,
    show List.all ['5'] Char.isDigit = true from by decide]
  exact fun h => nomatch h

/-- C7 witness: the two instances named by the spec,
`parseMemory("8GB") = 8 * 1024^3` and
`parseMemory("1.5TB") = 1.5 * 1024^4`. -/
theorem memory_get_bytes_unit_scaling_witness :
    MemoryGetBytes (gstr "8" ++ gstr "GB") = .ok (8 * 1024 ^ 3) ∧
    MemoryGetBytes (gstr "1.5" ++ gstr "TB") = .ok 1649267441664 := by
  constructor
  · have h := memory_get_bytes_unit_scaling (gstr "8") 8 (gstr "GB") 3
      parseDecChars_eight
      ⟨8, 0, by norm_num, by norm_num, by norm_num, by norm_num⟩
      (by decide) (by norm_num)
    rw [h]
    norm_num [ratTrunc]
  · have h := memory_get_bytes_unit_scaling (gstr "1.5") (3 / 2) (gstr "TB") 4
      parseDecChars_one_point_five
      ⟨3, -1, by norm_num, by norm_num, by norm_num, by norm_num⟩
      (by decide)
      (by rw [abs_of_nonneg (by norm_num : (0 : ℚ) ≤ 3 / 2)]; norm_num)
    rw [h]
    norm_num [ratTrunc]

/-- C8 counterexample: a malformed unit whose value prefix parses does
not fail — `MemoryGetBytes("8XY")` returns byte count `0` with a nil
error, because the missing-unit lookup yields Go's zero value. -/
theorem memory_malformed_unit_counterexample :
    MemoryUnitMap (gstr "XY") = 0 ∧
    MemoryGetBytes (gstr "8XY") = .ok 0 ∧
    MemoryGetBytes (gstr "8XY") ≠ .err := by
  have h : MemoryGetBytes (gstr "8XY") = .ok 0 := by
    have e : gstr "8XY" = gstr "8" ++ gstr "XY" := rfl
    rw [e, memoryGetBytes_append_unit _ _ (by decide), parseDecChars_eight,
      show MemoryUnitMap (gstr "XY") = 0 from by decide]
    norm_num [ratTrunc]
  exact ⟨by decide, h, by rw [h]; exact fun hh => nomatch hh⟩

/-- C8 amended: for a memory string whose last two characters are not a
known unit, the parse returns `0` bytes with no error whenever the
remaining prefix parses as a float (the unit lookup yields the zero
value `0`), and it returns an error only when the prefix fails to
parse. -/
theorem memory_malformed_unit_returns_zero (s u : GoStr) (v : ℚ)
    (hu2 : u.length = 2) (hu0 : MemoryUnitMap u = 0)
    (hs : parseDecChars s = some v) :
    MemoryGetBytes (s ++ u) = .ok 0 := by
  rw [memoryGetBytes_append_unit s u hu2, hs, hu0]
  norm_num [ratTrunc]

/-- C8 amended witness: instantiated at `"8" ++ "XY"`. -/
theorem memory_malformed_unit_returns_zero_witness :
    MemoryGetBytes (gstr "8" ++ gstr "XY") = .ok 0 :=
  memory_malformed_unit_returns_zero (gstr "8") (gstr "XY") 8
    (by decide) (by decide) parseDecChars_eight

/-- C10: for every input of length at least two, `MemoryGetBytes`
returns a value or an error and does not panic; the length guard is
exactly what protects the `size[len(size)-2:]` slice. -/
theorem memory_get_bytes_no_panic (size : GoStr) (h : 2 ≤ size.length) :
    MemoryGetBytes size ≠ .panic := by
  unfold MemoryGetBytes
  rw [if_neg (by omega)]
  cases parseDecChars (goTrimSuffix size (size.drop (size.length - 2))) <;> simp

/-- C10 witness: instantiated at `"8GB"`. -/
theorem memory_get_bytes_no_panic_witness :
    MemoryGetBytes (gstr "8GB") ≠ .panic :=
  memory_get_bytes_no_panic (gstr "8GB") (by decide)

/-! Scheduler and controller claims: the concrete evaluations. -/

/-- C3: on a pool with one free GPU out of two, `Apply(2)` finds only a
partial batch and its failure path calls the exported `Restore` while
still holding the exclusive lock, so the call deadlocks with `GPU-1`
left flipped to in-use instead of returning `GpuNotEnough` with the map
unchanged; when no id at all is free, `Restore`'s empty-list guard
returns before locking and the call does return `GpuNotEnough` with the
map unchanged. -/
theorem gpu_apply_partial_failure_deadlocks :
    gpuApply 2 [(gstr "GPU-0", 1), (gstr "GPU-1", 0)] 2 =
      .deadlock [(gstr "GPU-0", 1), (gstr "GPU-1", 1)] ∧
    gpuApply 2 [(gstr "GPU-0", 1), (gstr "GPU-1", 1)] 2 =
      .errNotEnough [(gstr "GPU-0", 1), (gstr "GPU-1", 1)] := by decide

/-- C4: when `PortScheduler.Apply` fails inside `runContainer`, the
version counter is not rolled back — `availableOSPorts, err := …`
shadows the function-scoped `err`, so the deferred rollback sees nil —
and the registry keeps `job ↦ 1` although no container was created; by
contrast, a create failure (second conjunct) does roll the version
back, because `resp, err :=` at function scope assigns the outer
`err`. -/
theorem run_container_port_failure_keeps_version :
    runContainer
        { existed := false, createOk := true, createId := gstr "cid",
          startOk := true, running := false, paused := false,
          inspectGpus := [], inspectCpus := [], inspectPorts := [],
          removeOk := true }
        (gstr "job")
        { env := [], portKeys := [gstr "22/tcp"], deviceIds := [],
          cpusetCpus := [] }
        false
        { gpuAvail := 1, gpu := [(gstr "GPU-0", 0)], cpuAvail := 1,
          cpu := [(gstr "0", 0)], portAvail := 1,
          port := [(gstr "40000", 1)], vmap := [], queue := [],
          removedPaths := [] } =
      (Except.error GoErr.portNotEnough,
       { gpuAvail := 1, gpu := [(gstr "GPU-0", 0)], cpuAvail := 1,
         cpu := [(gstr "0", 0)], portAvail := 1,
         port := [(gstr "40000", 1)], vmap := [(gstr "job", 1)],
         queue := [], removedPaths := [] }) ∧
    runContainer
        { existed := false, createOk := false, createId := gstr "cid",
          startOk := true, running := false, paused := false,
          inspectGpus := [], inspectCpus := [], inspectPorts := [],
          removeOk := true }
        (gstr "job")
        { env := [], portKeys := [gstr "22/tcp"], deviceIds := [],
          cpusetCpus := [] }
        false
        { gpuAvail := 1, gpu := [(gstr "GPU-0", 0)], cpuAvail := 1,
          cpu := [(gstr "0", 0)], portAvail := 1,
          port := [(gstr "40000", 0)], vmap := [], queue := [],
          removedPaths := [] } =
      (Except.error GoErr.createFailed,
       { gpuAvail := 1, gpu := [(gstr "GPU-0", 0)], cpuAvail := 1,
         cpu := [(gstr "0", 0)], portAvail := 1,
         port := [(gstr "40000", 1)], vmap := [], queue := [],
         removedPaths := [] }) := by
  constructor <;> decide

/-- C6: starting from the discovery-initialized two-cpu pool, the
reachable sequence `Apply(1); Restore(["junk"]); Apply(2)` makes the
second `Apply` return cpu id `"2"`, which was not a member of the pool
before the call and hence not free — the loop `for k := range keys`
iterates the indices of the sorted key slice, not the sorted key
values, and inserts the missing key `"2"`; the ascending order of the
returned ids nevertheless holds. -/
theorem cpu_apply_returns_nonmember_on_reachable_pool :
    initPool (initCpuIds 2) = [(gstr "0", 0), (gstr "1", 0)] ∧
    cpuApply 2 (initPool (initCpuIds 2)) 1 =
      .ok (gstr "0") [(gstr "0", 1), (gstr "1", 0)] ∧
    cpuRestore [(gstr "0", 1), (gstr "1", 0)] [gstr "junk"] =
      [(gstr "0", 1), (gstr "1", 0), (gstr "junk", 0)] ∧
    cpuApply 2 [(gstr "0", 1), (gstr "1", 0), (gstr "junk", 0)] 2 =
      .ok (gstr "1,2")
        [(gstr "0", 1), (gstr "1", 1), (gstr "junk", 0), (gstr "2", 1)] ∧
    splitOnC ',' (gstr "1,2") = [gstr "1", gstr "2"] ∧
    gstr "2" ∉ keys [(gstr "0", 1), (gstr "1", 0), (gstr "junk", 0)] := by
  refine ⟨by decide, by decide, by decide, by decide, by decide, by decide⟩

/-- C2 counterexample: `gpuScheduler.Restore` called with an id that is
not a member of the pool inserts it — membership is not fixed — and
afterwards `count(free) + count(in-use) = 2` differs from the cached
total `AvailableGpuNums = 1`. -/
theorem scheduler_membership_counterexample :
    gpuRestore 1 [(gstr "GPU-0", 0)] [gstr "X"] =
      [(gstr "GPU-0", 0), (gstr "X", 0)] ∧
    keys (gpuRestore 1 [(gstr "GPU-0", 0)] [gstr "X"]) ≠
      keys [(gstr "GPU-0", 0)] ∧
    countFree (gpuRestore 1 [(gstr "GPU-0", 0)] [gstr "X"]) +
      countInUse (gpuRestore 1 [(gstr "GPU-0", 0)] [gstr "X"]) ≠ 1 := by
  refine ⟨by decide, by decide, by decide⟩

/-- C9 counterexample: `gpuScheduler.Restore` with a list longer than
`AvailableGpuNums` (here two entries against a one-slot pool) is a
silent no-op, so the passed id `GPU-0` is not marked free, contrary to
the claim that restore marks every passed id free for every list. -/
theorem restore_overlong_list_counterexample :
    gpuRestore 1 [(gstr "GPU-0", 1)] [gstr "GPU-0", gstr "GPU-0"] =
      [(gstr "GPU-0", 1)] ∧
    goGet (gpuRestore 1 [(gstr "GPU-0", 1)] [gstr "GPU-0", gstr "GPU-0"])
      (gstr "GPU-0") ≠ 0 := by
  refine ⟨by decide, by decide⟩

/-- C1 counterexample: a run with one GPU, one CPU and one exposed port
whose container create fails returns the failure with the GPU and CPU
maps restored but the acquired host port still in-use — the port map is
not as it was before the call. -/
theorem run_failure_port_leak_counterexample :
    runGpuContainer
        { existed := false, createOk := false, createId := gstr "cid",
          startOk := true, running := false, paused := false,
          inspectGpus := [], inspectCpus := [], inspectPorts := [],
          removeOk := true }
        { replicaSetName := gstr "job", gpuCount := 1, cpuCount := 1,
          memory := [], containerPorts := [gstr "22"], env := [] }
        { gpuAvail := 1, gpu := [(gstr "GPU-0", 0)], cpuAvail := 1,
          cpu := [(gstr "0", 0)], portAvail := 1,
          port := [(gstr "40000", 0)], vmap := [], queue := [],
          removedPaths := [] } =
      .ret (.error .createFailed)
        { gpuAvail := 1, gpu := [(gstr "GPU-0", 0)], cpuAvail := 1,
          cpu := [(gstr "0", 0)], portAvail := 1,
          port := [(gstr "40000", 1)], vmap := [], queue := [],
          removedPaths := [] } ∧
    ([(gstr "40000", 1)] : Pool) ≠ [(gstr "40000", 0)] := by
  refine ⟨by decide, by decide⟩

/-- C5 counterexample: deleting the replica set named `a-b` (a name
containing `-`) succeeds, yet the version registry still holds the
entry for `a-b` — the code removed `strings.Split("a-b", "-")[0] = "a"`
instead. -/
theorem delete_dashed_name_counterexample :
    deleteContainer
        { existed := false, createOk := true, createId := gstr "cid",
          startOk := true, running := false, paused := false,
          inspectGpus := [], inspectCpus := [], inspectPorts := [],
          removeOk := true }
        (gstr "a-b")
        { gpuAvail := 1, gpu := [(gstr "GPU-0", 0)], cpuAvail := 1,
          cpu := [(gstr "0", 0)], portAvail := 1,
          port := [(gstr "40000", 0)], vmap := [(gstr "a-b", 1)],
          queue := [], removedPaths := [] } =
      (.ok (),
       { gpuAvail := 1, gpu := [(gstr "GPU-0", 0)], cpuAvail := 1,
         cpu := [(gstr "0", 0)], portAvail := 1,
         port := [(gstr "40000", 0)], vmap := [(gstr "a-b", 1)],
         queue := [WorkItem.del .containers (gstr "a-b")],
         removedPaths := [[gstr "merges", gstr "a"]] }) ∧
    lookupOpt [(gstr "a-b", 1)] (gstr "a-b") = some 1 := by
  refine ⟨by decide, by decide⟩

/-- C9 amended: the CPU scheduler's restore marks every passed id free
for every list and pool and is idempotent; the GPU scheduler's restore
does the same whenever the list is non-empty and no longer than
`AvailableGpuNums`, is a silent no-op otherwise, and is idempotent in
every case.  Neither restore can fail. -/
theorem restore_marks_free_and_idempotent :
    (∀ (m : Pool) (ids : List GoStr) (k : GoStr), k ∈ ids →
      goGet (cpuRestore m ids) k = 0) ∧
    (∀ (m : Pool) (ids : List GoStr),
      cpuRestore (cpuRestore m ids) ids = cpuRestore m ids) ∧
    (∀ (avail : Nat) (m : Pool) (ids : List GoStr) (k : GoStr), k ∈ ids →
      ¬(ids.length = 0 ∨ avail < ids.length) →
      goGet (gpuRestore avail m ids) k = 0) ∧
    (∀ (avail : Nat) (m : Pool) (ids : List GoStr),
      (ids.length = 0 ∨ avail < ids.length) → gpuRestore avail m ids = m) ∧
    (∀ (avail : Nat) (m : Pool) (ids : List GoStr),
      gpuRestore avail (gpuRestore avail m ids) ids =
        gpuRestore avail m ids) := by
  refine ⟨?_, ?_, ?_, ?_, ?_⟩
  · exact fun m ids k hk => goGet_restoreList_mem ids m k hk
  · exact fun m ids => restoreList_idem ids m
  · intro avail m ids k hk hguard
    rw [gpuRestore, if_neg hguard]
    exact goGet_restoreList_mem ids m k hk
  · intro avail m ids hguard
    rw [gpuRestore, if_pos hguard]
  · intro avail m ids
    by_cases hguard : ids.length = 0 ∨ avail < ids.length
    · rw [gpuRestore, if_pos hguard, gpuRestore, if_pos hguard]
    · rw [gpuRestore, if_neg hguard, gpuRestore, if_neg hguard]
      exact restoreList_idem ids m

/-- C9 amended witness: the CPU restore frees id `0` on a concrete
pool, and a two-element list against a one-slot GPU pool is a no-op. -/
theorem restore_marks_free_and_idempotent_witness :
    goGet (cpuRestore [(gstr "0", 1)] [gstr "0"]) (gstr "0") = 0 ∧
    gpuRestore 1 [(gstr "GPU-0", 1)] [gstr "GPU-0", gstr "GPU-0"] =
      [(gstr "GPU-0", 1)] ∧
    gpuRestore 2 (gpuRestore 2 [(gstr "GPU-0", 1)] [gstr "GPU-0"])
        [gstr "GPU-0"] =
      gpuRestore 2 [(gstr "GPU-0", 1)] [gstr "GPU-0"] := by
  refine ⟨restore_marks_free_and_idempotent.1 _ _ _ (by decide),
    restore_marks_free_and_idempotent.2.2.2.1 1 _ _ (by decide), ?_⟩
  have h := restore_marks_free_and_idempotent.2.2.2.2 2
    [(gstr "GPU-0", 1)] [gstr "GPU-0"]
  exact h

/-- C2 amended: for each scheduler, after every finite sequence of
apply and restore calls the pool's key set is unchanged and
`count(free) + count(in-use)` equals the cached total, provided every
restore call passes only ids that are members of the pool and — for
the CPU scheduler — the pool carries the canonical ids `"0" … "n-1"`
produced by initialization (apply may be called with any argument).
Without these provisos the invariant fails: see the counterexample. -/
theorem scheduler_membership_invariant_restricted :
    (∀ (avail : Nat) (m : Pool) (calls : List SchedCall),
      m.length = avail →
      (∀ c ∈ calls, ∀ ids, c = SchedCall.restore ids →
        ∀ x ∈ ids, x ∈ keys m) →
      keys (gpuRun avail m calls) = keys m ∧
      countFree (gpuRun avail m calls) +
        countInUse (gpuRun avail m calls) = avail) ∧
    (∀ (avail : Nat) (m : Pool) (calls : List SchedCall),
      m.length = avail →
      (∀ i, i < m.length → natChars i ∈ keys m) →
      (∀ c ∈ calls, ∀ ids, c = SchedCall.restore ids →
        ∀ x ∈ ids, x ∈ keys m) →
      keys (cpuRun avail m calls) = keys m ∧
      countFree (cpuRun avail m calls) +
        countInUse (cpuRun avail m calls) = avail) := by
  constructor
  · intro avail m calls hava hres
    have hkeys := keys_gpuRun avail calls m hres
    refine ⟨hkeys, ?_⟩
    rw [countFree_add_countInUse, ← length_keys, hkeys, length_keys, hava]
  · intro avail m calls hava hwf hres
    have hkeys := keys_cpuRun avail calls m hwf hres
    refine ⟨hkeys, ?_⟩
    rw [countFree_add_countInUse, ← length_keys, hkeys, length_keys, hava]

/-- C2 amended witness: a two-slot GPU pool and a two-slot CPU pool,
each driven through an apply followed by a member-only restore. -/
theorem scheduler_membership_invariant_restricted_witness :
    keys (gpuRun 2 [(gstr "GPU-0", 0), (gstr "GPU-1", 0)]
        [.apply 1, .restore [gstr "GPU-0"]]) =
      keys [(gstr "GPU-0", 0), (gstr "GPU-1", 0)] ∧
    countFree (gpuRun 2 [(gstr "GPU-0", 0), (gstr "GPU-1", 0)]
        [.apply 1, .restore [gstr "GPU-0"]]) +
      countInUse (gpuRun 2 [(gstr "GPU-0", 0), (gstr "GPU-1", 0)]
        [.apply 1, .restore [gstr "GPU-0"]]) = 2 ∧
    keys (cpuRun 2 [(gstr "0", 0), (gstr "1", 0)]
        [.apply 2, .restore [gstr "0"]]) =
      keys [(gstr "0", 0), (gstr "1", 0)] ∧
    countFree (cpuRun 2 [(gstr "0", 0), (gstr "1", 0)]
        [.apply 2, .restore [gstr "0"]]) +
      countInUse (cpuRun 2 [(gstr "0", 0), (gstr "1", 0)]
        [.apply 2, .restore [gstr "0"]]) = 2 := by
  have hwf : ∀ i, i < ([(gstr "0", 0), (gstr "1", 0)] : Pool).length →
      natChars i ∈ keys [(gstr "0", 0), (gstr "1", 0)] := by
    intro i hi
    match i, hi with
    | 0, _ => decide
    | 1, _ => decide
  have hg := scheduler_membership_invariant_restricted.1 2
    [(gstr "GPU-0", 0), (gstr "GPU-1", 0)] [.apply 1, .restore [gstr "GPU-0"]]
    (by decide)
    (by
      intro c hc ids hids x hx
      rcases List.mem_cons.mp hc with h1 | h2
      · rw [h1] at hids
        exact nomatch hids
      · rw [List.mem_singleton.mp h2] at hids
        cases hids
        rw [List.mem_singleton.mp hx]
        decide)
  have hcpu := scheduler_membership_invariant_restricted.2 2
    [(gstr "0", 0), (gstr "1", 0)] [.apply 2, .restore [gstr "0"]]
    (by decide) hwf
    (by
      intro c hc ids hids x hx
      rcases List.mem_cons.mp hc with h1 | h2
      · rw [h1] at hids
        exact nomatch hids
      · rw [List.mem_singleton.mp h2] at hids
        cases hids
        rw [List.mem_singleton.mp hx]
        decide)
  exact ⟨hg.1, hg.2, hcpu.1, hcpu.2⟩

/-- C5 amended: after a successful `Delete(X)` the kv delete of the
live record at key `containers/X` has been enqueued, and the merges
subtree and the version-registry entry removed are those of the first
`"-"`-separated component of `X` — which equals `X` exactly when `X`
contains no `"-"`, in which case the registry indeed has no entry for
`X` afterwards. -/
theorem delete_container_postconditions (o : Oracle) (name : GoStr)
    (s : SchedState) (v : Nat)
    (hv : lookupOpt s.vmap name = some v)
    (hnd : (keys s.vmap).Nodup)
    (hok : o.removeOk = true) :
    (deleteContainer o name s).1 = .ok () ∧
    WorkItem.del .containers name ∈ (deleteContainer o name s).2.queue ∧
    [gstr "merges", (splitOnC '-' name).headD []] ∈
      (deleteContainer o name s).2.removedPaths ∧
    lookupOpt (deleteContainer o name s).2.vmap
      ((splitOnC '-' name).headD []) = none ∧
    ('-' ∉ name →
      lookupOpt (deleteContainer o name s).2.vmap name = none) := by
  have hmain : (deleteContainer o name s).1 = .ok () ∧
      (deleteContainer o name s).2.queue =
        s.queue ++ [WorkItem.del .containers name] ∧
      (deleteContainer o name s).2.removedPaths =
        s.removedPaths ++ [[gstr "merges", (splitOnC '-' name).headD []]] ∧
      (deleteContainer o name s).2.vmap =
        goDel s.vmap ((splitOnC '-' name).headD []) := by
    by_cases hrp : o.running ∨ o.paused <;>
      simp [deleteContainer, hv, hrp, hok]
  obtain ⟨h1, h2, h3, h4⟩ := hmain
  refine ⟨h1, ?_, ?_, ?_, ?_⟩
  · rw [h2]
    exact List.mem_append_right _ (List.mem_singleton.mpr rfl)
  · rw [h3]
    exact List.mem_append_right _ (List.mem_singleton.mpr rfl)
  · rw [h4]
    exact lookupOpt_goDel_self s.vmap _ hnd
  · intro hdash
    have hroot : (splitOnC '-' name).headD [] = name := by
      rw [splitOnC_no_sep '-' name hdash]
      rfl
    rw [h4, hroot]
    exact lookupOpt_goDel_self s.vmap name hnd

/-- C1 amended: when the container create fails inside `runContainer`
(after GPUs, CPUs and host ports were all acquired in this call), the
run returns the failure with the GPU and CPU maps restored exactly to
their pre-call state, but the acquired host ports are left in-use —
the final state differs from the initial one exactly by the port map
being the post-acquisition map.  Hypotheses: the runtime reports no
existing container and a failing create; GPUs and CPUs are requested
and all three acquisitions succeed; no memory string is given; the GPU
pool has distinct keys, the CPU pool carries the canonical ids of
initialization, and stored versions are at least one. -/
theorem run_failure_restores_gpu_cpu_not_ports
    (o : Oracle) (spec : RunSpec) (s : SchedState)
    (gids : List GoStr) (gm : Pool) (cs : GoStr) (cm : Pool)
    (pids : List GoStr) (pm : Pool)
    (hex : o.existed = false) (hcr : o.createOk = false)
    (hg : 0 < spec.gpuCount) (hc : 0 < spec.cpuCount)
    (hmem : spec.memory = [])
    (hports : spec.containerPorts ≠ [])
    (hgnd : (keys s.gpu).Nodup)
    (hwf : ∀ i, i < s.cpu.length → natChars i ∈ keys s.cpu)
    (hvm : ∀ v0, lookupOpt s.vmap spec.replicaSetName = some v0 → 0 < v0)
    (hga : gpuApply s.gpuAvail s.gpu spec.gpuCount = .ok gids gm)
    (hca : cpuApply s.cpuAvail s.cpu spec.cpuCount = .ok cs cm)
    (hpa : portApply s.portAvail s.port
      (spec.containerPorts.map (fun p2 => p2 ++ gstr "/tcp")).length =
      some (pids, pm)) :
    runGpuContainer o spec s =
      .ret (.error .createFailed) { s with port := pm } := by
  obtain ⟨ga, g, ca, c, pa, p, vm, q, rp⟩ := s
  dsimp only at hgnd hwf hvm hga hca hpa
  obtain ⟨ids, hcs, hcm, hidnd, hidne, hidlk⟩ :=
    cpuApply_ok_spec ca c spec.cpuCount cs cm hca
  have hparts : ∀ q2 ∈ ids, q2 ≠ [] ∧ ',' ∉ q2 := by
    intro q2 hq2
    obtain ⟨_, i, hi, hqi⟩ := hidlk q2 hq2
    rw [hqi]
    exact ⟨natChars_ne_nil i, comma_notin_natChars i⟩
  have hsplit : splitOnC ',' cs = ids := by
    rw [hcs, trimComma_joinComma ids hidne hparts,
      splitOnC_joinComma ids hidne (fun p2 hp2 => (hparts p2 hp2).2)]
  have hlkzero : ∀ k ∈ ids, lookupOpt c k = some 0 := by
    intro k hk
    obtain ⟨hg0, i, hi, hki⟩ := hidlk k hk
    refine lookupOpt_of_goGet_eq_zero c k ?_ hg0
    rw [hki]
    exact hwf i hi
  have hcpuR : cpuRestore cm (splitOnC ',' cs) = c := by
    rw [hsplit, cpuRestore, hcm]
    exact restoreList_markInUse ids c hidnd hlkzero
  have hgpuR : gpuRestore ga gm gids = g :=
    gpuRestore_after_apply ga g spec.gpuCount gids gm hgnd hga
  have hportlen :
      0 < (spec.containerPorts.map (fun p2 => p2 ++ gstr "/tcp")).length := by
    rw [List.length_map]
    exact List.length_pos.mpr hports
  have hrc : runContainer o spec.replicaSetName
      { env := spec.env,
        portKeys := spec.containerPorts.map (fun p2 => p2 ++ gstr "/tcp"),
        deviceIds := gids, cpusetCpus := cs }
      false
      { gpuAvail := ga, gpu := gm, cpuAvail := ca, cpu := cm,
        portAvail := pa, port := p, vmap := vm, queue := q,
        removedPaths := rp } =
      (.error .createFailed,
       { gpuAvail := ga, gpu := gm, cpuAvail := ca, cpu := cm,
         portAvail := pa, port := pm, vmap := vm, queue := q,
         removedPaths := rp }) :=
    runContainer_create_fail o spec.replicaSetName _ false _ pids pm hcr
      hportlen hpa hvm
  rw [runGpuContainer, hex]
  rw [if_neg Bool.false_ne_true, if_pos hg]
  dsimp only
  rw [hga]
  dsimp only
  rw [runGpuCpu, if_pos hc]
  dsimp only
  rw [hca]
  dsimp only
  rw [runGpuMem, if_neg (by rw [hmem]; exact fun hh => hh rfl)]
  rw [runGpuCreate]
  dsimp only
  rw [hrc]
  dsimp only
  rw [if_pos hg]
  dsimp only
  rw [hgpuR, hcpuR]

/-- C1 amended witness: one GPU, one CPU, one exposed port, create
fails; the GPU and CPU maps return to their initial state while port
`40000` stays in-use. -/
theorem run_failure_restores_gpu_cpu_not_ports_witness :
    runGpuContainer
        { existed := false, createOk := false, createId := gstr "cid",
          startOk := true, running := false, paused := false,
          inspectGpus := [], inspectCpus := [], inspectPorts := [],
          removeOk := true }
        { replicaSetName := gstr "job2", gpuCount := 1, cpuCount := 1,
          memory := [], containerPorts := [gstr "22"], env := [] }
        { gpuAvail := 1, gpu := [(gstr "GPU-0", 0)], cpuAvail := 1,
          cpu := [(gstr "0", 0)], portAvail := 1,
          port := [(gstr "40000", 0)], vmap := [], queue := [],
          removedPaths := [] } =
      .ret (.error .createFailed)
        { gpuAvail := 1, gpu := [(gstr "GPU-0", 0)], cpuAvail := 1,
          cpu := [(gstr "0", 0)], portAvail := 1,
          port := [(gstr "40000", 1)], vmap := [], queue := [],
          removedPaths := [] } := by
  have hwf : ∀ i, i < ([(gstr "0", 0)] : Pool).length →
      natChars i ∈ keys [(gstr "0", 0)] := by
    intro i hi
    match i, hi with
    | 0, _ => decide
  exact run_failure_restores_gpu_cpu_not_ports
    { existed := false, createOk := false, createId := gstr "cid",
      startOk := true, running := false, paused := false,
      inspectGpus := [], inspectCpus := [], inspectPorts := [],
      removeOk := true }
    { replicaSetName := gstr "job2", gpuCount := 1, cpuCount := 1,
      memory := [], containerPorts := [gstr "22"], env := [] }
    { gpuAvail := 1, gpu := [(gstr "GPU-0", 0)], cpuAvail := 1,
      cpu := [(gstr "0", 0)], portAvail := 1, port := [(gstr "40000", 0)],
      vmap := [], queue := [], removedPaths := [] }
    [gstr "GPU-0"] [(gstr "GPU-0", 1)] (gstr "0") [(gstr "0", 1)]
    [gstr "40000"] [(gstr "40000", 1)]
    rfl rfl (by decide) (by decide) rfl (by decide) (by decide) hwf
    (fun v0 h => nomatch h) (by decide) (by decide) (by decide)

/-- C5 amended witness: deleting the dash-free name `job` removes its
registry entry, enqueues the kv delete and removes `merges/job`. -/
theorem delete_container_postconditions_witness :
    (deleteContainer
        { existed := false, createOk := true, createId := gstr "cid",
          startOk := true, running := false, paused := false,
          inspectGpus := [], inspectCpus := [], inspectPorts := [],
          removeOk := true }
        (gstr "job")
        { gpuAvail := 1, gpu := [(gstr "GPU-0", 0)], cpuAvail := 1,
          cpu := [(gstr "0", 0)], portAvail := 1,
          port := [(gstr "40000", 0)], vmap := [(gstr "job", 2)],
          queue := [], removedPaths := [] }).1 = .ok () ∧
    lookupOpt (deleteContainer
        { existed := false, createOk := true, createId := gstr "cid",
          startOk := true, running := false, paused := false,
          inspectGpus := [], inspectCpus := [], inspectPorts := [],
          removeOk := true }
        (gstr "job")
        { gpuAvail := 1, gpu := [(gstr "GPU-0", 0)], cpuAvail := 1,
          cpu := [(gstr "0", 0)], portAvail := 1,
          port := [(gstr "40000", 0)], vmap := [(gstr "job", 2)],
          queue := [], removedPaths := [] }).2.vmap (gstr "job") = none := by
  have h := delete_container_postconditions
    { existed := false, createOk := true, createId := gstr "cid",
      startOk := true, running := false, paused := false,
      inspectGpus := [], inspectCpus := [], inspectPorts := [],
      removeOk := true }
    (gstr "job")
    { gpuAvail := 1, gpu := [(gstr "GPU-0", 0)], cpuAvail := 1,
      cpu := [(gstr "0", 0)], portAvail := 1,
      port := [(gstr "40000", 0)], vmap := [(gstr "job", 2)],
      queue := [], removedPaths := [] }
    2 (by decide) (by decide) rfl
  exact ⟨h.1, h.2.2.2.2 (by decide)⟩

end GpuDockerApi
